import Mathlib

/-!
A shallow embedding of the `smash` shell (`smash.c`) and theorems about it.

C strings are lists of characters (the bytes before the terminating NUL).
Heap allocation (`malloc`, `strdup`) is taken to succeed; every other system
call that can fail (`pipe`, `fork`, `open`, `getcwd`, `chdir`) is answered by
an explicit environment.  An access outside an object (an out-of-bounds load or
store) is undefined behaviour and is reported as such instead of being given a
meaning.
-/

namespace Smash

abbrev Str := List Char

/-- `const int MAX = 20;` -/
def MAX : Nat := 20

/-- The C string a literal denotes: its characters up to the first NUL. -/
def cstr (lit : String) : Str := lit.toList.takeWhile (fun c => c != '\x00')

/-- `char error_message[30] = "An error has occurred\n";` -/
def error_message : Str := cstr "An error has occurred\n"

/-! ## libc string functions -/

/-- Membership in the delimiter set `" \t\n"` used by every `strtok` call and by `trimleading`. -/
def isDelim (c : Char) : Bool := c == ' ' || c == '\t' || c == '\n'

/-- One `strtok` step with delimiters `" \t\n"` from position `s`: `none` when only delimiters
remain, otherwise the token and the position saved for the next call (just after the
delimiter that was overwritten by NUL, or the end of the string). -/
def strtok (s : Str) : Option (Str × Str) :=
  match s.dropWhile isDelim with
  | [] => none
  | c :: cs =>
    some ((c :: cs).takeWhile (fun x => !isDelim x),
          ((c :: cs).dropWhile (fun x => !isDelim x)).drop 1)

/-- `strsep(&s, delim)`: the piece before the first character of `delim`, and the new value of
`s` (`none` is NULL: no delimiter was found). -/
def strsep (s : Str) (delim : Str) : Str × Option Str :=
  match s.dropWhile (fun c => !delim.elem c) with
  | [] => (s, none)
  | _ :: rest => (s.takeWhile (fun c => !delim.elem c), some rest)

/-- `isspace` of the C locale. -/
def isspace (c : Char) : Bool :=
  c == ' ' || c == '\t' || c == '\n' || c == '\x0b' || c == '\x0c' || c == '\r'

/-- Value of the leading run of decimal digits, most significant first. -/
def digitsValue : Str → Nat → Nat
  | [], acc => acc
  | c :: cs, acc =>
    if '0' ≤ c ∧ c ≤ '9' then digitsValue cs (acc * 10 + (c.toNat - '0'.toNat)) else acc

/-- Conversion of a 64-bit `long` to a 32-bit `int`. -/
def toInt32 (v : Int) : Int := (v + 2 ^ 31) % 2 ^ 32 - 2 ^ 31

/-- `atoi` as `(int) strtol(s, NULL, 10)`: blanks, an optional sign, digits; the `long` result
saturates, the cast to `int` wraps. -/
def atoi (s : Str) : Int :=
  match s.dropWhile isspace with
  | '-' :: r => toInt32 (max (-(digitsValue r 0 : Int)) (-(2 ^ 63)))
  | '+' :: r => toInt32 (min (digitsValue r 0 : Int) (2 ^ 63 - 1))
  | r => toInt32 (min (digitsValue r 0 : Int) (2 ^ 63 - 1))

/-! ## lexer -/

/-- The first `while` loop of `lexer`: counts the tokens of the duplicate. -/
def lexerCount : Nat → Str → Nat → Nat
  | 0, _, num_args => num_args
  | fuel + 1, l, num_args =>
    match strtok l with
    | none => num_args
    | some (_, rest) => lexerCount fuel rest (num_args + 1)

/-- The second `while` loop of `lexer`: stores a copy of each token at `(*args)[(*num_args)++]`.
The result is `none` when a store falls outside the `alloc` entries of `*args`. -/
def lexerFill (alloc : Nat) : Nat → Str → List Str → Option (List Str)
  | 0, _, args => some args
  | fuel + 1, line, args =>
    match strtok line with
    | none => some args
    | some (token, rest) =>
      if args.length < alloc then lexerFill alloc fuel rest (args ++ [token]) else none

/-- What `lexer` leaves behind: the return value, the argument array, `*num_args`, and the
number of entries that were allocated for `*args`. -/
structure Lexed where
  ret : Int
  args : List Str
  num_args : Nat
  alloc : Nat
deriving DecidableEq, Repr

/-- `lexer(line, &args, &num_args)`; `none` is an out-of-bounds store into `*args`. -/
def lexer (line : Str) : Option Lexed :=
  let count := lexerCount (line.length + 1) line 0
  match lexerFill count (line.length + 1) line [] with
  | none => none
  | some args => some { ret := 0, args := args, num_args := args.length, alloc := count }

/-! ## Statement text helpers -/

/-- `isnumber(token)` -/
def isnumber : Str → Int
  | [] => 1
  | c :: cs => if c < '0' ∨ c > '9' then 0 else isnumber cs

/-- `trimleading(line)`: `i` counts the leading blanks, the rest is shifted down by `i`. -/
def trimleading (line : Str) : Str :=
  let i := (line.takeWhile isDelim).length
  if i ≠ 0 then line.drop i else line

/-- `droptoken(line)`.  `memmove` shifts the bytes from offset `strlen(token)` on to the front and
leaves the last `strlen(token)` bytes where they were; after `trimleading` the string is cut
at index `strlen(line) - strlen(token)`.  `none`: that index is negative, the store is
outside the string. -/
def droptoken (line : Str) : Option Str :=
  match strtok line with
  | some (token, _) =>
    let moved := line.drop token.length ++ line.drop (line.length - token.length)
    let trimmed := trimleading moved
    if token.length ≤ trimmed.length then some (trimmed.take (trimmed.length - token.length))
    else none
  | none => some []

/-- The body of the `while` loop of `splitline`, with the `i` of the source being
`kept.length`; `cap` is the number of entries of `str_arr`.  `none`: a store `str_arr[i]`
outside the array (or no fuel left). -/
def splitlineLoop (cap : Nat) (delim : Str) : Nat → Option Str → List Str → Option (List Str)
  | 0, _, _ => none
  | fuel + 1, input_ln, kept =>
    if kept.length < cap then
      match input_ln with
      | none => some kept
      | some s =>
        let piece := (strsep s delim).1
        if piece ≠ cstr "\x00" ∧ piece ≠ cstr "\n" ∧ piece ≠ cstr "\t" ∧ piece ≠ cstr "" then
          splitlineLoop cap delim fuel (strsep s delim).2 (kept ++ [piece])
        else
          splitlineLoop cap delim fuel (strsep s delim).2 kept
    else none

/-- `splitline(str_arr, input_ln, delim, &num_pcs)` for an array `str_arr` of `cap` entries:
the pieces kept, in order (`num_pcs` is their number). -/
def splitline (cap : Nat) (input_ln : Str) (delim : Str) : Option (List Str) :=
  splitlineLoop cap delim (input_ln.length + 2) (some input_ln) []

/-- `loopcheck(line)` -/
def loopcheck (line : Str) : Int :=
  match strtok (trimleading line) with
  | some (token, _) => if token = cstr "loop" then 1 else 0
  | none => 0

/-- `getnumloops(line)` -/
def getnumloops (line : Str) : Int :=
  match strtok (trimleading line) with
  | some (token, _) => if isnumber token = 1 ∧ atoi token > 0 then atoi token else -1
  | none => -1

/-! ## Descriptor tables -/

/-- What a descriptor refers to. -/
inductive Obj
  | ext (n : Nat)
  | pipeRead (i : Nat)
  | pipeWrite (i : Nat)
  | file (path : Str) (flags : Nat) (mode : Nat)
deriving DecidableEq, Repr

/-- A descriptor table: entry `fd` is what descriptor `fd` refers to; descriptors past the end
are closed. -/
abbrev FdTable := List (Option Obj)

def FdTable.get (t : FdTable) (fd : Nat) : Option Obj := t.getD fd none

def FdTable.put (t : FdTable) (fd : Nat) (o : Option Obj) : FdTable :=
  if fd < t.length then t.set fd o else t ++ List.replicate (fd - t.length) none ++ [o]

/-- The lowest-numbered descriptor that is not open (what `pipe` and `open` hand out). -/
def lowestFree (t : FdTable) : Nat := t.findIdx (fun o => o.isNone)

/-- `close(fd)`; closing a descriptor that is not open changes nothing. -/
def sysClose (t : FdTable) (fd : Nat) : FdTable := t.set fd none

/-- `dup2(oldfd, newfd)`; fails without effect when `oldfd` is not open. -/
def sysDup2 (t : FdTable) (oldfd newfd : Nat) : FdTable :=
  match t.get oldfd with
  | none => t
  | some o => t.put newfd (some o)

/-- A successful `pipe(fds)` creating pipe number `i`: the table and `(fds[0], fds[1])`. -/
def sysPipe (t : FdTable) (i : Nat) : FdTable × (Nat × Nat) :=
  let r := lowestFree t
  let t1 := t.put r (some (Obj.pipeRead i))
  let w := lowestFree t1
  (t1.put w (some (Obj.pipeWrite i)), (r, w))

def STDIN_FILENO : Nat := 0
def STDOUT_FILENO : Nat := 1
def STDERR_FILENO : Nat := 2
def O_WRONLY : Nat := 0o1
def O_CREAT : Nat := 0o100
def O_TRUNC : Nat := 0o1000

/-! ## Processes -/

/-- System calls a child of `pipeline` makes, in program order. -/
inductive Sys
  | close (fd : Nat)
  | dup2 (oldfd newfd : Nat)
  | open_ (path : Str) (flags mode : Nat) (ret : Int)
  | execv (path : Option Str) (argv : List Str)
  | write (fd : Nat) (buf : Str)
  | exit_ (code : Int)
deriving DecidableEq, Repr

/-- A forked child of `pipeline`: its system calls up to and including `execv` (or `_Exit`), its
descriptor table at that moment, and the `execv` arguments if it got that far. -/
structure Child where
  stage : Nat
  calls : List Sys
  fds : FdTable
  exec : Option (Option Str × List Str)
deriving DecidableEq, Repr

/-- What the interpreter process does, in order. -/
inductive Event
  | write (fd : Nat) (buf : Str)
  | printf (out : Str)
  | builtinhandler (line : Str)
  | splitpiped (line : Str)
  | pipeline (cmds : List (List Str))
  | pipe (i : Nat) (fds : Option (Nat × Nat))
  | close (fd : Nat)
  | fork (i : Nat) (child : Option Child)
  | wait
  | getcwd (ok : Bool)
  | chdir (path : Option Str) (ok : Bool)
deriving DecidableEq, Repr

/-- State of the interpreter process. -/
structure Shell where
  fds : FdTable
  cwd : Str
  trace : List Event
deriving DecidableEq, Repr

def Shell.log (s : Shell) (e : Event) : Shell := { s with trace := s.trace ++ [e] }

/-- How a call ends: it returns, the process terminates, or undefined behaviour is reached. -/
inductive Outcome (α : Type)
  | ret (a : α) (s : Shell)
  | exited (code : Int) (s : Shell)
  | ub (s : Shell)
deriving DecidableEq, Repr

/-- `write(STDERR_FILENO, error_message, strlen(error_message));` -/
def reportError (s : Shell) : Shell := s.log (Event.write STDERR_FILENO error_message)

/-- Answers of the kernel during one call of `pipeline`: whether the `i`-th `pipe()` succeeds,
whether the `fork()` for stage `i` succeeds, and whether `open` and `execv` succeed in the
child of stage `i`. -/
structure PipeOS where
  pipeOk : Nat → Bool
  forkOk : Nat → Bool
  openOk : Nat → Bool
  execOk : Nat → Bool

/-- Answers of the environment to the interpreter: `getenv("HOME")`, the directory `chdir(path)`
leads to from a working directory (`none`: it fails), and, given what happened so far,
whether `getcwd` succeeds and how the kernel answers the next `pipeline`. -/
structure Env where
  home : Option Str
  chdir : Str → Str → Option Str
  getcwdOk : List Event → Bool
  pipeOS : List Event → PipeOS

/-! ## pipeline -/

/-- `getnumargs(args)`: an argument array is the list of its entries before the NULL. -/
def getnumargs (args : List Str) : Nat := args.length

/-- `execv(cmds[i][0], cmds[i])` in the child of stage `i`, and what follows when it fails. -/
def childExec (os : PipeOS) (i : Nat) (args : List Str) (fds : FdTable) (calls : List Sys) :
    Child :=
  { stage := i
    calls := calls ++ [Sys.execv args.head? args] ++
      (if os.execOk i then [] else [Sys.write STDERR_FILENO error_message, Sys.exit_ 0])
    fds := fds
    exec := some (args.head?, args) }

/-- The branch `pids[i] == 0` of `pipeline`: the child of stage `i`, started with a copy `fds`
of the parent's descriptor table.  `pipe_fds` holds the pairs `(pipe_fds[j][0], pipe_fds[j][1])`. -/
def child (os : PipeOS) (cmds : List (List Str)) (pipe_fds : List (Nat × Nat)) (fds : FdTable)
    (i : Nat) : Child :=
  let num_cmds := cmds.length
  let args := cmds.getD i []
  let num_args := getnumargs args
  let inp := pipe_fds.getD (i - 1) (0, 0)
  let fds1 :=
    if i > 0 then sysClose (sysDup2 (sysClose fds inp.2) inp.1 STDIN_FILENO) inp.1 else fds
  let calls1 :=
    if i > 0 then [Sys.close inp.2, Sys.dup2 inp.1 STDIN_FILENO, Sys.close inp.1] else []
  let out := pipe_fds.getD i (0, 0)
  if i < num_cmds - 1 then
    childExec os i args (sysClose (sysDup2 (sysClose fds1 out.1) out.2 STDOUT_FILENO) out.2)
      (calls1 ++ [Sys.close out.1, Sys.dup2 out.2 STDOUT_FILENO, Sys.close out.2])
  else if num_args > 2 ∧ args.get? (num_args - 2) = some (cstr ">") then
    let path := args.getD (num_args - 1) []
    let flags := O_WRONLY ||| O_CREAT ||| O_TRUNC
    if os.openOk i then
      let output_fd := lowestFree fds1
      let fds2 := fds1.put output_fd (some (Obj.file path flags 0o644))
      childExec os i (args.take (num_args - 2))
        (sysClose (sysDup2 fds2 output_fd STDOUT_FILENO) output_fd)
        (calls1 ++ [Sys.open_ path flags 0o644 output_fd,
                    Sys.dup2 output_fd STDOUT_FILENO, Sys.close output_fd])
    else
      { stage := i
        calls := calls1 ++ [Sys.open_ path flags 0o644 (-1),
                            Sys.write STDERR_FILENO error_message, Sys.exit_ 0]
        fds := fds1
        exec := none }
  else childExec os i args fds1 calls1

/-- The first `for` loop of `pipeline`, `n` pipes still to create, the next one being pipe `i`.
`none`: a `pipe()` failed, the error was written and `_Exit(0)` follows. -/
def makePipes (os : PipeOS) : Nat → Nat → Shell → List (Nat × Nat) →
    Shell × Option (List (Nat × Nat))
  | 0, _, s, pipe_fds => (s, some pipe_fds)
  | n + 1, i, s, pipe_fds =>
    if os.pipeOk i then
      makePipes os n (i + 1)
        ({ s with fds := (sysPipe s.fds i).1 }.log (Event.pipe i (some (sysPipe s.fds i).2)))
        (pipe_fds ++ [(sysPipe s.fds i).2])
    else (reportError (s.log (Event.pipe i none)), none)

/-- The second `for` loop of `pipeline` as the parent sees it, `n` stages still to fork, the next
one being stage `i`.  `false`: a `fork()` failed, the error was written and `_Exit(0)` follows. -/
def forkAll (os : PipeOS) (cmds : List (List Str)) (pipe_fds : List (Nat × Nat)) :
    Nat → Nat → Shell → Shell × Bool
  | 0, _, s => (s, true)
  | n + 1, i, s =>
    if os.forkOk i then
      forkAll os cmds pipe_fds n (i + 1)
        (s.log (Event.fork i (some (child os cmds pipe_fds s.fds i))))
    else (reportError (s.log (Event.fork i none)), false)

/-- The third `for` loop of `pipeline`: the parent closes both ends of every pipe. -/
def closePipes : List (Nat × Nat) → Shell → Shell
  | [], s => s
  | p :: ps, s =>
    closePipes ps
      (({ s with fds := sysClose (sysClose s.fds p.1) p.2 }.log (Event.close p.1)).log
        (Event.close p.2))

/-- `pipeline(cmds, num_cmds)` in the interpreter process, `num_cmds` being `cmds.length`.
With `num_cmds = 0` the array bound `num_cmds - 1` wraps around: undefined behaviour. -/
def pipeline (os : PipeOS) (cmds : List (List Str)) (s : Shell) : Outcome Int :=
  let num_cmds := cmds.length
  let output_fd : Int := -1
  let s0 := s.log (Event.pipeline cmds)
  if num_cmds = 0 then Outcome.ub s0
  else
    match makePipes os (num_cmds - 1) 0 s0 [] with
    | (s1, none) => Outcome.exited 0 s1
    | (s1, some pipe_fds) =>
      match forkAll os cmds pipe_fds num_cmds 0 s1 with
      | (s2, false) => Outcome.exited 0 s2
      | (s2, true) =>
        let s3 := (closePipes pipe_fds s2).log Event.wait
        if output_fd ≠ -1 then
          Outcome.ret 0 { s3 with fds := sysClose s3.fds output_fd.toNat }
        else Outcome.ret 0 s3

/-! ## Builtins -/

/-- `chdir(path)`; a NULL path fails. -/
def sysChdir (env : Env) (s : Shell) (path : Option Str) : Shell × Bool :=
  match path.bind (env.chdir s.cwd) with
  | some d => ({ s with cwd := d }.log (Event.chdir path true), true)
  | none => (s.log (Event.chdir path false), false)

/-- `changedir(args)`: the condition is `(A && B) || C`, evaluated left to right. -/
def changedir (env : Env) (args : List Str) (s : Shell) : Shell :=
  let arg1 := args.getD 1 []
  let ab : Shell × Bool :=
    if arg1 = cstr "~" then ((sysChdir env s env.home).1, !(sysChdir env s env.home).2)
    else (s, false)
  if ab.2 then reportError ab.1
  else
    let c := sysChdir env ab.1 (some arg1)
    if !c.2 then reportError c.1 else c.1

/-- `printworkingdir()` -/
def printworkingdir (env : Env) (s : Shell) : Outcome Unit :=
  let path_max := 256
  if env.getcwdOk s.trace ∧ s.cwd.length < path_max then
    Outcome.ret () ((s.log (Event.getcwd true)).log (Event.printf (s.cwd ++ cstr "\n")))
  else Outcome.exited 0 (reportError (s.log (Event.getcwd false)))

/-- `builtinhandler(line)`.  `args[0]` is read whatever `num_args` is; with no token the array
that `lexer` allocated has no entry and the load is out of bounds. -/
def builtinhandler (env : Env) (line : Str) (s : Shell) : Outcome Int :=
  let s0 := s.log (Event.builtinhandler line)
  match lexer line with
  | none => Outcome.ub s0
  | some lx =>
    if lx.ret = -1 then Outcome.exited 0 (reportError s0)
    else if lx.alloc = 0 then Outcome.ub s0
    else
      let arg0 := lx.args.getD 0 []
      if arg0 = cstr "exit" then Outcome.exited 0 s0
      else if arg0 = cstr "pwd" then
        match printworkingdir env s0 with
        | Outcome.ret _ s1 => Outcome.ret 1 s1
        | Outcome.exited c s1 => Outcome.exited c s1
        | Outcome.ub s1 => Outcome.ub s1
      else if lx.num_args = 2 ∧ arg0 = cstr "cd" then Outcome.ret 1 (changedir env lx.args s0)
      else Outcome.ret 0 s0

/-! ## Statements -/

/-- The `for` loop of `splitpiped`: `lexer` on every piece, then `cmd_arr[i][num_args[i]] = NULL`,
which makes the tokens the NULL-terminated argument array of stage `i`. -/
def lexStages : List Str → Option (List (List Str))
  | [] => some []
  | piece :: pieces =>
    match lexer piece with
    | none => none
    | some lx => (lexStages pieces).map (fun cmds => lx.args :: cmds)

/-- `splitpiped(line)` -/
def splitpiped (env : Env) (line : Str) (s : Shell) : Outcome Unit :=
  let s0 := s.log (Event.splitpiped line)
  match splitline MAX line (cstr "|") with
  | none => Outcome.ub s0
  | some str_arr =>
    match lexStages str_arr with
    | none => Outcome.ub s0
    | some cmd_arr =>
      match pipeline (env.pipeOS s0.trace) cmd_arr s0 with
      | Outcome.ret _ s1 => Outcome.ret () s1
      | Outcome.exited c s1 => Outcome.exited c s1
      | Outcome.ub s1 => Outcome.ub s1

/-- One pass through the body of the `for (j ...)` loop of `splitchained`: `builtinhandler`,
and `splitpiped` when it returned 0. -/
def dispatch (env : Env) (line : Str) (s : Shell) : Outcome Unit :=
  match builtinhandler env line s with
  | Outcome.ret r s1 => if r = 0 then splitpiped env line s1 else Outcome.ret () s1
  | Outcome.exited c s1 => Outcome.exited c s1
  | Outcome.ub s1 => Outcome.ub s1

/-- The `for (j = 0; j < num_runs; ++j)` loop of `splitchained`. -/
def runLoop (env : Env) (line : Str) : Nat → Shell → Outcome Unit
  | 0, s => Outcome.ret () s
  | num_runs + 1, s =>
    match dispatch env line s with
    | Outcome.ret _ s1 => runLoop env line num_runs s1
    | Outcome.exited c s1 => Outcome.exited c s1
    | Outcome.ub s1 => Outcome.ub s1

/-- What `splitchained` makes of the outcome of the `for (j ...)` loop: it goes on to the next
statement when the loop has run through. -/
def afterRuns : Outcome Unit → Outcome Bool
  | Outcome.ret _ s => Outcome.ret true s
  | Outcome.exited c s => Outcome.exited c s
  | Outcome.ub s => Outcome.ub s

/-- The body of the `for (i ...)` loop of `splitchained` on `str_arr[i]`.  The value returned is
`true` when the loop goes on to `i + 1` and `false` when `splitchained` returns. -/
def statement (env : Env) (stmt : Str) (s : Shell) : Outcome Bool :=
  if loopcheck stmt = 1 then
    match droptoken stmt with
    | none => Outcome.ub s
    | some stmt1 =>
      let num_loops := getnumloops stmt1
      if num_loops ≥ 1 then
        match droptoken stmt1 with
        | none => Outcome.ub s
        | some stmt2 =>
          afterRuns (runLoop env stmt2 num_loops.toNat s)
      else Outcome.ret false (reportError s)
  else afterRuns (runLoop env stmt 1 s)

/-- The `for (i ...)` loop of `splitchained` over the pieces still to run. -/
def chainLoop (env : Env) : List Str → Shell → Outcome Unit
  | [], s => Outcome.ret () s
  | stmt :: rest, s =>
    match statement env stmt s with
    | Outcome.ret goOn s1 => if goOn then chainLoop env rest s1 else Outcome.ret () s1
    | Outcome.exited c s1 => Outcome.exited c s1
    | Outcome.ub s1 => Outcome.ub s1

/-- `splitchained(line)` -/
def splitchained (env : Env) (line : Str) (s : Shell) : Outcome Unit :=
  match splitline MAX line (cstr ";") with
  | none => Outcome.ub s
  | some str_arr => chainLoop env str_arr s

/-! ## Sample environments -/

/-- A kernel in which every call succeeds. -/
def okOS : PipeOS :=
  { pipeOk := fun _ => true, forkOk := fun _ => true, openOk := fun _ => true,
    execOk := fun _ => true }

/-- An environment in which every call succeeds and every directory exists. -/
def okEnv : Env :=
  { home := some (cstr "/home/u"), chdir := fun _ path => some path,
    getcwdOk := fun _ => true, pipeOS := fun _ => okOS }

/-- An interpreter with the three standard descriptors open, in directory `/`. -/
def shell0 : Shell :=
  { fds := [some (Obj.ext 0), some (Obj.ext 1), some (Obj.ext 2)], cwd := cstr "/", trace := [] }

/-! ## Observations on outcomes and traces -/

/-- The interpreter state an outcome carries. -/
def Outcome.state {α : Type} : Outcome α → Shell
  | Outcome.ret _ s => s
  | Outcome.exited _ s => s
  | Outcome.ub s => s

/-- The lines `builtinhandler` was called on, in order. -/
def builtinCalls : List Event → List Str
  | [] => []
  | Event.builtinhandler line :: es => line :: builtinCalls es
  | _ :: es => builtinCalls es

/-- The children forked, in order. -/
def spawned : List Event → List Child
  | [] => []
  | Event.fork _ (some c) :: es => c :: spawned es
  | _ :: es => spawned es

/-- What `s1` has in its trace beyond the trace of `s`. -/
def newEvents (s s1 : Shell) : List Event := s1.trace.drop s.trace.length

/-- The tokens that successive `strtok` calls return, at most `fuel` of them. -/
def strtokAll : Nat → Str → List Str
  | 0, _ => []
  | fuel + 1, s =>
    match strtok s with
    | none => []
    | some (token, rest) => token :: strtokAll fuel rest

/-- Following the words of the specification: the maximal runs of characters other than space,
tab and newline, in order (the pieces between those characters that are not empty). -/
def maximalRuns (line : Str) : List Str :=
  (line.splitOnP isDelim).filter (fun t => !t.isEmpty)

/-- The descriptors held by the pipes of `pipe_fds`. -/
def fdsOf : List (Nat × Nat) → List Nat
  | [] => []
  | p :: ps => p.1 :: p.2 :: fdsOf ps

/-- How a table `t` with the pipes `pipe_fds` open relates to the table `t0` from before they
were created: the pipes sit in descriptors that were free, pipe `j` has its read end at
`pipe_fds[j][0]` and its write end at `pipe_fds[j][1]`, and nothing else differs. -/
def PipesInv (t0 t : FdTable) (pipe_fds : List (Nat × Nat)) : Prop :=
  (∀ fd, fd ∉ fdsOf pipe_fds → t.get fd = t0.get fd) ∧
  (∀ j, j < pipe_fds.length →
    t.get (pipe_fds.getD j (0, 0)).1 = some (Obj.pipeRead j) ∧
    t.get (pipe_fds.getD j (0, 0)).2 = some (Obj.pipeWrite j)) ∧
  (∀ fd, fd ∈ fdsOf pipe_fds → t0.get fd = none)

/-- A kernel in which the first `pipe()` fails. -/
def pipeFailOS : PipeOS := { okOS with pipeOk := fun _ => false }

/-- A kernel in which the `fork()` for stage 1 fails. -/
def forkFailOS : PipeOS := { okOS with forkOk := fun i => decide (i ≠ 1) }

/-- An environment whose kernel refuses every `pipe()`. -/
def pipeFailEnv : Env := { okEnv with pipeOS := fun _ => pipeFailOS }

/-- How often the error message was written to descriptor 2. -/
def errorCount (tr : List Event) : Nat := tr.count (Event.write STDERR_FILENO error_message)

/-- The token list of `/bin/echo hi > out.txt`. -/
def echoToFile : List (List Str) := [[cstr "/bin/echo", cstr "hi", cstr ">", cstr "out.txt"]]

/-- The token list of `/bin/ls | /bin/cat | /bin/cat`. -/
def lsCatCat : List (List Str) := [[cstr "/bin/ls"], [cstr "/bin/cat"], [cstr "/bin/cat"]]

/-- An environment in which the only directory there is to change to is `/home/u`, the value of
`HOME`. -/
def homeOnlyEnv : Env :=
  { okEnv with chdir := fun _ path => if path = cstr "/home/u" then some path else none }

/-- The paths `chdir` was called with, in order. -/
def chdirCalls : List Event → List (Option Str)
  | [] => []
  | Event.chdir path _ :: es => path :: chdirCalls es
  | _ :: es => chdirCalls es

/-- The command arrays `pipeline` was called with, in order. -/
def pipelineCalls : List Event → List (List (List Str))
  | [] => []
  | Event.pipeline cmds :: es => cmds :: pipelineCalls es
  | _ :: es => pipelineCalls es

/-- What was printed on standard output, in order. -/
def printed : List Event → List Str
  | [] => []
  | Event.printf out :: es => out :: printed es
  | _ :: es => printed es

/-- The state after the statements `stmts` have all been run through, one after the other, from
`s` on; `none` when one of them ends the interpreter, ends `splitchained`, or runs into
undefined behaviour. -/
def runThrough (env : Env) : List Str → Shell → Option Shell
  | [], s => some s
  | stmt :: rest, s =>
    match statement env stmt s with
    | Outcome.ret true s1 => runThrough env rest s1
    | _ => none

/-- An interpreter started with its standard output closed (`smash >&-`): descriptors 0 and 2
are open, descriptor 1 is free. -/
def shellNoStdout : Shell :=
  { fds := [some (Obj.ext 0), none, some (Obj.ext 2)], cwd := cstr "/", trace := [] }

/-- An interpreter whose working directory has a path of 256 bytes. -/
def shellLongCwd : Shell := { shell0 with cwd := '/' :: List.replicate 255 'a' }

/-! ## Theorems -/

/-! ### Tokens -/

theorem head_dropWhile_false {p : Char → Bool} :
    ∀ (l : Str) (c : Char) (cs : Str), l.dropWhile p = c :: cs → p c = false := by
  intro l
  induction l with
  | nil => intro c cs h; simp at h
  | cons a l ih =>
    intro c cs h
    by_cases ha : p a = true
    · rw [List.dropWhile_cons_of_pos ha] at h
      exact ih c cs h
    · rw [List.dropWhile_cons_of_neg ha] at h
      cases h
      simpa using ha

theorem length_dropWhile_le_self (p : Char → Bool) (l : Str) :
    (l.dropWhile p).length ≤ l.length := by
  induction l with
  | nil => simp
  | cons a l ih =>
    by_cases ha : p a = true
    · rw [List.dropWhile_cons_of_pos ha]; simp; omega
    · rw [List.dropWhile_cons_of_neg ha]

theorem strtok_none_iff (s : Str) : strtok s = none ↔ s.dropWhile isDelim = [] := by
  unfold strtok
  split
  · simp_all
  · simp_all

theorem strtok_some (s : Str) (c : Char) (cs : Str) (h : s.dropWhile isDelim = c :: cs) :
    strtok s = some ((c :: cs).takeWhile (fun x => !isDelim x),
      ((c :: cs).dropWhile (fun x => !isDelim x)).drop 1) := by
  unfold strtok
  rw [h]

theorem strtok_rest_length (s token rest : Str) (h : strtok s = some (token, rest)) :
    rest.length < s.length := by
  unfold strtok at h
  split at h
  · cases h
  · rename_i c cs hd
    have hc : isDelim c = false := head_dropWhile_false s c cs hd
    have h1 := length_dropWhile_le_self isDelim s
    rw [hd] at h1
    simp only [Option.some.injEq, Prod.mk.injEq] at h
    obtain ⟨-, hr⟩ := h
    subst hr
    have h2 : ((c :: cs).dropWhile (fun x => !isDelim x)) = cs.dropWhile (fun x => !isDelim x) := by
      rw [List.dropWhile_cons_of_pos]; simp [hc]
    rw [h2]
    have h3 := length_dropWhile_le_self (fun x => !isDelim x) cs
    simp only [List.length_drop, List.length_cons] at *
    omega

theorem maximalRuns_nil : maximalRuns [] = [] := by
  simp [maximalRuns, List.splitOnP_nil]

theorem maximalRuns_cons_delim (d : Char) (s : Str) (hd : isDelim d = true) :
    maximalRuns (d :: s) = maximalRuns s := by
  simp [maximalRuns, List.splitOnP_cons, hd]

theorem maximalRuns_dropWhile (s : Str) : maximalRuns (s.dropWhile isDelim) = maximalRuns s := by
  induction s with
  | nil => simp
  | cons a l ih =>
    by_cases ha : isDelim a = true
    · rw [List.dropWhile_cons_of_pos ha, ih, maximalRuns_cons_delim a l ha]
    · rw [List.dropWhile_cons_of_neg ha]

theorem maximalRuns_token (c : Char) (cs : Str) (hc : isDelim c = false) :
    maximalRuns (c :: cs) = (c :: cs).takeWhile (fun x => !isDelim x)
      :: maximalRuns (((c :: cs).dropWhile (fun x => !isDelim x)).drop 1) := by
  have hsplit := List.takeWhile_append_dropWhile (fun x => !isDelim x) (c :: cs)
  have htok : ∀ x ∈ (c :: cs).takeWhile (fun x => !isDelim x), ¬ (isDelim x = true) := by
    intro x hx
    have := List.mem_takeWhile_imp hx
    simpa using this
  have hne : (c :: cs).takeWhile (fun x => !isDelim x) ≠ [] := by
    rw [List.takeWhile_cons_of_pos (by simp [hc])]; simp
  cases hrest : (c :: cs).dropWhile (fun x => !isDelim x) with
  | nil =>
    rw [hrest, List.append_nil] at hsplit
    rw [hsplit] at htok hne ⊢
    simp only [List.drop_nil, maximalRuns_nil]
    unfold maximalRuns
    rw [List.splitOnP_eq_single isDelim _ htok]
    simp
  | cons sep as =>
    have hsep : isDelim sep = true := by
      have := head_dropWhile_false (c :: cs) sep as hrest
      simpa using this
    rw [hrest] at hsplit
    conv_lhs => rw [← hsplit]
    unfold maximalRuns
    rw [List.splitOnP_first isDelim _ htok sep hsep as]
    simp only [List.drop_succ_cons, List.drop_zero]
    rw [List.filter_cons_of_pos]
    simpa using hne

theorem strtokAll_eq_maximalRuns :
    ∀ (fuel : Nat) (s : Str), s.length < fuel → strtokAll fuel s = maximalRuns s := by
  intro fuel
  induction fuel with
  | zero => intro s h; omega
  | succ f ih =>
    intro s h
    unfold strtokAll
    cases hd : s.dropWhile isDelim with
    | nil =>
      rw [(strtok_none_iff s).2 hd]
      rw [← maximalRuns_dropWhile, hd, maximalRuns_nil]
    | cons c cs =>
      have hst := strtok_some s c cs hd
      have hlen := strtok_rest_length s _ _ hst
      rw [hst]
      simp only
      rw [ih _ (by omega), ← maximalRuns_dropWhile s, hd,
        maximalRuns_token c cs (head_dropWhile_false s c cs hd)]

theorem lexerCount_eq :
    ∀ (fuel : Nat) (l : Str) (n : Nat), lexerCount fuel l n = n + (strtokAll fuel l).length := by
  intro fuel
  induction fuel with
  | zero => intro l n; simp [lexerCount, strtokAll]
  | succ f ih =>
    intro l n
    unfold lexerCount strtokAll
    cases h : strtok l with
    | none => simp
    | some tr =>
      obtain ⟨t, r⟩ := tr
      simp only [ih, List.length_cons]
      omega

theorem lexerFill_eq (alloc : Nat) :
    ∀ (fuel : Nat) (line : Str) (args : List Str),
      args.length + (strtokAll fuel line).length ≤ alloc →
      lexerFill alloc fuel line args = some (args ++ strtokAll fuel line) := by
  intro fuel
  induction fuel with
  | zero => intro line args _; simp [lexerFill, strtokAll]
  | succ f ih =>
    intro line args hle
    unfold lexerFill
    unfold strtokAll at hle ⊢
    cases h : strtok line with
    | none => simp
    | some tr =>
      obtain ⟨t, r⟩ := tr
      rw [h] at hle
      simp only [List.length_cons] at hle
      simp only
      rw [if_pos (by omega), ih r (args ++ [t]) (by simp; omega)]
      simp

theorem lexer_eq (line : Str) :
    lexer line = some { ret := 0, args := strtokAll (line.length + 1) line,
                        num_args := (strtokAll (line.length + 1) line).length,
                        alloc := (strtokAll (line.length + 1) line).length } := by
  unfold lexer
  simp only [lexerCount_eq, Nat.zero_add]
  rw [lexerFill_eq _ _ _ _ (by simp)]
  simp

theorem strtokAll_token_shape :
    ∀ (fuel : Nat) (s : Str), ∀ t ∈ strtokAll fuel s, t ≠ [] ∧ ∀ c ∈ t, isDelim c = false := by
  intro fuel
  induction fuel with
  | zero => intro s t ht; simp [strtokAll] at ht
  | succ f ih =>
    intro s t ht
    unfold strtokAll at ht
    cases hd : s.dropWhile isDelim with
    | nil => rw [(strtok_none_iff s).2 hd] at ht; simp at ht
    | cons c cs =>
      have hc := head_dropWhile_false s c cs hd
      rw [strtok_some s c cs hd] at ht
      simp only [List.mem_cons] at ht
      rcases ht with rfl | ht
      · constructor
        · rw [List.takeWhile_cons_of_pos (by simp [hc])]; simp
        · intro x hx
          have := List.mem_takeWhile_imp hx
          simpa using this
      · exact ih _ t ht

theorem filter_dropWhile_isDelim (s : Str) :
    (s.dropWhile isDelim).filter (fun c => !isDelim c) = s.filter (fun c => !isDelim c) := by
  induction s with
  | nil => simp
  | cons a l ih =>
    by_cases ha : isDelim a = true
    · rw [List.dropWhile_cons_of_pos ha, ih, List.filter_cons_of_neg (by simp [ha])]
    · rw [List.dropWhile_cons_of_neg ha]

theorem filter_token_rest (s : Str) :
    s.filter (fun c => !isDelim c)
      = s.takeWhile (fun x => !isDelim x)
        ++ ((s.dropWhile (fun x => !isDelim x)).drop 1).filter (fun c => !isDelim c) := by
  induction s with
  | nil => simp
  | cons a l ih =>
    cases ha : isDelim a with
    | true => simp [List.takeWhile_cons, List.dropWhile_cons, List.filter_cons, ha]
    | false =>
      simp only [List.takeWhile_cons, List.dropWhile_cons, List.filter_cons, ha, Bool.not_false,
        if_true, List.cons_append]
      rw [ih]

theorem strtokAll_join :
    ∀ (fuel : Nat) (s : Str), s.length < fuel →
      (strtokAll fuel s).flatten = s.filter (fun c => !isDelim c) := by
  intro fuel
  induction fuel with
  | zero => intro s h; omega
  | succ f ih =>
    intro s h
    unfold strtokAll
    cases hd : s.dropWhile isDelim with
    | nil =>
      rw [(strtok_none_iff s).2 hd, ← filter_dropWhile_isDelim, hd]
      simp
    | cons c cs =>
      have hst := strtok_some s c cs hd
      have hlen := strtok_rest_length s _ _ hst
      rw [hst]
      simp only [List.flatten_cons]
      rw [ih _ (by omega), ← filter_dropWhile_isDelim s, hd]
      exact (filter_token_rest (c :: cs)).symm

/-- C4: for every line, `lexer` returns 0 and its argument array holds, in order, the maximal
runs of characters other than space, tab and newline, `num_args` being their number; no token
is empty, none contains one of the three characters, the tokens concatenated are the line
without those characters, and a line of blanks only (or an empty one) gives no token. -/
theorem lexer_tokens (line : Str) :
    ∃ lx : Lexed, lexer line = some lx ∧ lx.ret = 0 ∧ lx.args = maximalRuns line ∧
      lx.num_args = (maximalRuns line).length ∧
      (∀ t ∈ lx.args, t ≠ [] ∧ ∀ c ∈ t, isDelim c = false) ∧
      lx.args.flatten = line.filter (fun c => !isDelim c) ∧
      ((∀ c ∈ line, isDelim c = true) → lx.args = [] ∧ lx.num_args = 0) := by
  refine ⟨_, lexer_eq line, rfl, ?_, ?_, ?_, ?_, ?_⟩
  · exact strtokAll_eq_maximalRuns _ line (by omega)
  · simp only
    rw [strtokAll_eq_maximalRuns _ line (by omega)]
  · exact strtokAll_token_shape _ line
  · exact strtokAll_join _ line (by omega)
  · intro hall
    have hd : line.dropWhile isDelim = [] := List.dropWhile_eq_nil_iff.2 hall
    have : strtokAll (line.length + 1) line = [] := by
      unfold strtokAll
      rw [(strtok_none_iff line).2 hd]
    simp [this]

/-- C3: on `ls ; ; pwd` with delimiter `;`, `splitline` keeps the middle piece `" "`, which is
made up only of whitespace: three pieces are returned, not two. -/
theorem splitline_keeps_blank_piece :
    splitline MAX (cstr "ls ; ; pwd\n") (cstr ";")
      = some [cstr "ls ", cstr " ", cstr " pwd\n"] := by
  decide

/-- C2: on the piece `" loop 2 /bin/pwd"` (the second statement of `ls; loop 2 /bin/pwd`),
`loopcheck` finds the loop, but `droptoken` removes the first four bytes instead of the token
and leaves `p 2 /bin/pwd`; `getnumloops` answers -1, the error is written and nothing runs. -/
theorem leading_blank_loop_rejected :
    loopcheck (cstr " loop 2 /bin/pwd\n") = 1 ∧
    droptoken (cstr " loop 2 /bin/pwd\n") = some (cstr "p 2 /bin/pwd\n") ∧
    getnumloops (cstr "p 2 /bin/pwd\n") = -1 ∧
    statement okEnv (cstr " loop 2 /bin/pwd\n") shell0 = Outcome.ret false (reportError shell0) ∧
    (droptoken (cstr "loop 2 /bin/pwd\n")).bind droptoken = some (cstr "/bin/pwd\n") ∧
    getnumloops (cstr "2 /bin/pwd\n") = 2 := by
  decide

/-- C10: on the line `loop 0 ls; pwd` the malformed loop makes `splitchained` write the error and
return at once: `builtinhandler` is never called, `pwd` is not run. -/
theorem malformed_loop_drops_rest_of_line :
    splitchained okEnv (cstr "loop 0 ls; pwd\n") shell0 = Outcome.ret () (reportError shell0) ∧
    builtinCalls (splitchained okEnv (cstr "loop 0 ls; pwd\n") shell0).state.trace = [] := by
  decide

/-! ### Descriptor tables -/

theorem get_sysClose (t : FdTable) (fd fd1 : Nat) :
    (sysClose t fd).get fd1 = if fd1 = fd then none else t.get fd1 := by
  unfold sysClose FdTable.get
  simp only [List.getD_eq_getElem?_getD, List.getElem?_set]
  by_cases h : fd = fd1
  · subst h
    by_cases h2 : fd < t.length <;> simp [h2]
  · have h3 : ¬ fd1 = fd := fun e => h e.symm
    simp [h, h3]

theorem get_put (t : FdTable) (fd fd1 : Nat) (o : Option Obj) :
    (t.put fd o).get fd1 = if fd1 = fd then o else t.get fd1 := by
  unfold FdTable.put FdTable.get
  simp only [List.getD_eq_getElem?_getD]
  by_cases hlt : fd < t.length
  · rw [if_pos hlt, List.getElem?_set]
    by_cases h : fd = fd1
    · subst h; simp [hlt]
    · have h3 : ¬ fd1 = fd := fun e => h e.symm
      simp [h, h3]
  · rw [if_neg hlt]
    by_cases h : fd1 = fd
    · subst h
      rw [if_pos rfl, List.getElem?_append_right (by simp; omega)]
      have e : fd1 - (t ++ List.replicate (fd1 - t.length) none).length = 0 := by
        simp; omega
      rw [e]
      rfl
    · rw [if_neg h]
      by_cases h4 : fd1 < t.length
      · rw [List.append_assoc, List.getElem?_append_left h4]
      · rw [List.getElem?_eq_none (by omega : t.length ≤ fd1)]
        by_cases h5 : fd1 < fd
        · rw [List.getElem?_append_left (by simp; omega), List.getElem?_append_right (by omega)]
          simp only [List.getElem?_replicate]
          split <;> rfl
        · rw [List.getElem?_eq_none (by simp; omega)]

theorem get_lowestFree (t : FdTable) : t.get (lowestFree t) = none := by
  unfold lowestFree FdTable.get
  rw [List.getD_eq_getElem?_getD]
  by_cases h : t.findIdx (fun o => o.isNone) < t.length
  · have := List.findIdx_getElem (w := h)
    rw [List.getElem?_eq_getElem h]
    simpa using this
  · rw [List.getElem?_eq_none (by omega)]
    rfl

theorem get_sysDup2 (t : FdTable) (oldfd newfd fd1 : Nat) (o : Obj) (h : t.get oldfd = some o) :
    (sysDup2 t oldfd newfd).get fd1 = if fd1 = newfd then some o else t.get fd1 := by
  unfold sysDup2
  rw [h]
  exact get_put t newfd fd1 (some o)

/-- The three calls `close(a); dup2(b, tgt); close(b);` of a child. -/
theorem get_wire (t : FdTable) (a b tgt fd : Nat) (o : Obj) (hab : b ≠ a)
    (hb : t.get b = some o) :
    (sysClose (sysDup2 (sysClose t a) b tgt) b).get fd
      = if fd = b then none else if fd = tgt then some o else if fd = a then none
        else t.get fd := by
  have h1 : (sysClose t a).get b = some o := by
    rw [get_sysClose, if_neg hab, hb]
  rw [get_sysClose, get_sysDup2 _ _ _ _ o h1, get_sysClose]

theorem mem_fdsOf_append (P : List (Nat × Nat)) (r w fd : Nat) :
    fd ∈ fdsOf (P ++ [(r, w)]) ↔ fd ∈ fdsOf P ∨ fd = r ∨ fd = w := by
  induction P with
  | nil => simp [fdsOf]
  | cons p ps ih =>
    simp only [List.cons_append, fdsOf, List.mem_cons, ih]
    tauto

theorem mem_fdsOf_getD (P : List (Nat × Nat)) (j : Nat) (h : j < P.length) :
    (P.getD j (0, 0)).1 ∈ fdsOf P ∧ (P.getD j (0, 0)).2 ∈ fdsOf P := by
  induction P generalizing j with
  | nil => simp at h
  | cons p ps ih =>
    cases j with
    | zero => simp [fdsOf]
    | succ j =>
      have := ih j (by simpa using h)
      simp only [List.getD_cons_succ, fdsOf, List.mem_cons]
      tauto

theorem mem_fdsOf_iff (P : List (Nat × Nat)) (fd : Nat) :
    fd ∈ fdsOf P ↔ ∃ j, j < P.length ∧ (fd = (P.getD j (0, 0)).1 ∨ fd = (P.getD j (0, 0)).2) := by
  induction P with
  | nil => simp [fdsOf]
  | cons p ps ih =>
    simp only [fdsOf, List.mem_cons, ih]
    constructor
    · rintro (h | h | ⟨j, hj, h⟩)
      · exact ⟨0, by simp, Or.inl (by simpa using h)⟩
      · exact ⟨0, by simp, Or.inr (by simpa using h)⟩
      · exact ⟨j + 1, by simpa using hj, by simpa using h⟩
    · rintro ⟨j, hj, h⟩
      cases j with
      | zero => simp only [List.getD_cons_zero] at h; tauto
      | succ j =>
        right; right
        exact ⟨j, by simpa using hj, by simpa using h⟩

theorem PipesInv_nil (t0 : FdTable) : PipesInv t0 t0 [] := by
  refine ⟨fun _ _ => rfl, ?_, ?_⟩
  · intro j hj; simp at hj
  · intro fd hfd; simp [fdsOf] at hfd

/-- A pipe held in `t` is open there. -/
theorem PipesInv.open_of_mem {t0 t : FdTable} {P : List (Nat × Nat)} (h : PipesInv t0 t P)
    (fd : Nat) (hfd : fd ∈ fdsOf P) : t.get fd ≠ none := by
  obtain ⟨j, hj, hor⟩ := (mem_fdsOf_iff P fd).1 hfd
  have := h.2.1 j hj
  rcases hor with e | e
  · rw [e, this.1]; exact Option.some_ne_none _
  · rw [e, this.2]; exact Option.some_ne_none _

/-- Creating one more pipe keeps the invariant. -/
theorem PipesInv.step {t0 t : FdTable} {P : List (Nat × Nat)} (h : PipesInv t0 t P) :
    PipesInv t0 (sysPipe t P.length).1 (P ++ [(sysPipe t P.length).2]) := by
  have hr : t.get (lowestFree t) = none := get_lowestFree t
  have hw0 := get_lowestFree (t.put (lowestFree t) (some (Obj.pipeRead P.length)))
  have hwr : lowestFree (t.put (lowestFree t) (some (Obj.pipeRead P.length))) ≠ lowestFree t := by
    intro e
    rw [e, get_put, if_pos rfl] at hw0
    cases hw0
  have hw : t.get (lowestFree (t.put (lowestFree t) (some (Obj.pipeRead P.length)))) = none := by
    rw [get_put, if_neg hwr] at hw0
    exact hw0
  have hrP : lowestFree t ∉ fdsOf P := fun hm => h.open_of_mem _ hm hr
  have hwP : lowestFree (t.put (lowestFree t) (some (Obj.pipeRead P.length))) ∉ fdsOf P :=
    fun hm => h.open_of_mem _ hm hw
  simp only [sysPipe]
  refine ⟨?_, ?_, ?_⟩
  · intro fd hfd
    rw [mem_fdsOf_append] at hfd
    push_neg at hfd
    rw [get_put, if_neg hfd.2.2, get_put, if_neg hfd.2.1]
    exact h.1 fd hfd.1
  · intro j hj
    rw [List.length_append, List.length_singleton] at hj
    by_cases hjl : j < P.length
    · have hm := mem_fdsOf_getD P j hjl
      have hget : (P ++ [(lowestFree t,
          lowestFree (t.put (lowestFree t) (some (Obj.pipeRead P.length))))]).getD j (0, 0)
          = P.getD j (0, 0) := by
        simp [List.getD_eq_getElem?_getD, List.getElem?_append_left hjl]
      rw [hget]
      have h1 : (P.getD j (0, 0)).1 ≠ lowestFree t := fun e => hrP (e ▸ hm.1)
      have h2 : (P.getD j (0, 0)).2 ≠ lowestFree t := fun e => hrP (e ▸ hm.2)
      have h3 : (P.getD j (0, 0)).1 ≠
          lowestFree (t.put (lowestFree t) (some (Obj.pipeRead P.length))) :=
        fun e => hwP (e ▸ hm.1)
      have h4 : (P.getD j (0, 0)).2 ≠
          lowestFree (t.put (lowestFree t) (some (Obj.pipeRead P.length))) :=
        fun e => hwP (e ▸ hm.2)
      rw [get_put, if_neg h3, get_put, if_neg h1, get_put, if_neg h4, get_put, if_neg h2]
      exact h.2.1 j hjl
    · have hje : j = P.length := by omega
      subst hje
      have hget : (P ++ [(lowestFree t,
          lowestFree (t.put (lowestFree t) (some (Obj.pipeRead P.length))))]).getD P.length (0, 0)
          = (lowestFree t,
            lowestFree (t.put (lowestFree t) (some (Obj.pipeRead P.length)))) := by
        simp [List.getD_eq_getElem?_getD]
      rw [hget]
      simp only
      rw [get_put, if_neg (Ne.symm hwr), get_put, if_pos rfl, get_put, if_pos rfl]
      exact ⟨rfl, rfl⟩
  · intro fd hfd
    rw [mem_fdsOf_append] at hfd
    rcases hfd with hfd | rfl | rfl
    · exact h.2.2 fd hfd
    · rw [← h.1 _ hrP]; exact hr
    · rw [← h.1 _ hwP]; exact hw

/-! ### The parent side of `pipeline` -/

theorem makePipes_ok (os : PipeOS) (t0 : FdTable) :
    ∀ (n : Nat) (s : Shell) (P : List (Nat × Nat)), PipesInv t0 s.fds P →
      (∀ i, i < P.length + n → os.pipeOk i = true) →
      ∃ (t1 : FdTable) (Q : List (Nat × Nat)), PipesInv t0 t1 (P ++ Q) ∧ Q.length = n ∧
        makePipes os n P.length s P
          = ({ fds := t1, cwd := s.cwd,
               trace := s.trace ++ (List.range' P.length n).map
                 (fun k => Event.pipe k (some ((P ++ Q).getD k (0, 0)))) },
             some (P ++ Q)) := by
  intro n
  induction n with
  | zero =>
    intro s P hinv _
    exact ⟨s.fds, [], by simpa using hinv, rfl, by simp [makePipes]⟩
  | succ n ih =>
    intro s P hinv hok
    have hstep := hinv.step
    have h1 := ih ({ s with fds := (sysPipe s.fds P.length).1 }.log
        (Event.pipe P.length (some (sysPipe s.fds P.length).2)))
      (P ++ [(sysPipe s.fds P.length).2]) hstep
      (by intro i hi; apply hok; simp at hi; omega)
    obtain ⟨t1, Q, hinv1, hlen1, heq⟩ := h1
    refine ⟨t1, (sysPipe s.fds P.length).2 :: Q, by simpa using hinv1, by simp [hlen1], ?_⟩
    unfold makePipes
    rw [if_pos (hok P.length (by omega))]
    rw [List.length_append, List.length_singleton] at heq
    rw [heq]
    have hx : (P ++ (sysPipe s.fds P.length).2 :: Q).getD P.length (0, 0)
        = (sysPipe s.fds P.length).2 := by
      rw [List.getD_eq_getElem?_getD, List.getElem?_append_right (le_refl _)]
      simp
    have e : P ++ [(sysPipe s.fds P.length).2] ++ Q = P ++ (sysPipe s.fds P.length).2 :: Q := by
      simp
    rw [e]
    simp only [Shell.log, List.range'_succ, List.map_cons, hx, List.append_assoc,
      List.singleton_append]

theorem forkAll_ok (os : PipeOS) (cmds : List (List Str)) (P : List (Nat × Nat)) :
    ∀ (n i : Nat) (s : Shell), (∀ k, k < i + n → os.forkOk k = true) →
      forkAll os cmds P n i s
        = ({ s with trace := s.trace ++
              (List.range' i n).map (fun k => Event.fork k (some (child os cmds P s.fds k))) },
           true) := by
  intro n
  induction n with
  | zero => intro i s _; simp [forkAll]
  | succ n ih =>
    intro i s hok
    unfold forkAll
    rw [if_pos (hok i (by omega)), ih (i + 1) _ (by intro k hk; apply hok; omega)]
    simp [Shell.log, List.range'_succ]

theorem closePipes_eq :
    ∀ (P : List (Nat × Nat)) (s : Shell),
      (closePipes P s).cwd = s.cwd ∧
      (closePipes P s).trace = s.trace ++ (fdsOf P).map Event.close ∧
      ∀ fd, (closePipes P s).fds.get fd = if fd ∈ fdsOf P then none else s.fds.get fd := by
  intro P
  induction P with
  | nil => intro s; simp [closePipes, fdsOf]
  | cons p ps ih =>
    intro s
    unfold closePipes
    obtain ⟨h1, h2, h3⟩ := ih (({ s with fds := sysClose (sysClose s.fds p.1) p.2 }.log
      (Event.close p.1)).log (Event.close p.2))
    refine ⟨by rw [h1]; rfl, by rw [h2]; simp [Shell.log, fdsOf], ?_⟩
    intro fd
    rw [h3]
    simp only [Shell.log, get_sysClose]
    by_cases h1 : fd ∈ fdsOf ps
    · simp [h1, fdsOf]
    · by_cases h2 : fd = p.2
      · simp [h2, fdsOf]
      · by_cases h3 : fd = p.1
        · simp [h3, fdsOf]
        · simp [h1, h2, h3, fdsOf]

/-- When every `pipe()` and `fork()` succeeds, `pipeline` returns 0 after creating the pipes,
forking one child per stage from the table that holds all pipes, closing the pipes and
waiting. -/
theorem pipeline_ok (os : PipeOS) (cmds : List (List Str)) (s : Shell) (hN : 1 ≤ cmds.length)
    (hp : ∀ i, i < cmds.length - 1 → os.pipeOk i = true)
    (hf : ∀ i, i < cmds.length → os.forkOk i = true) :
    ∃ (t1 : FdTable) (P : List (Nat × Nat)) (s1 : Shell),
      PipesInv s.fds t1 P ∧ P.length = cmds.length - 1 ∧
      pipeline os cmds s = Outcome.ret 0 s1 ∧ s1.cwd = s.cwd ∧
      (∀ fd, s1.fds.get fd = if fd ∈ fdsOf P then none else t1.get fd) ∧
      s1.trace = s.trace ++ (Event.pipeline cmds ::
        ((List.range' 0 (cmds.length - 1)).map (fun k => Event.pipe k (some (P.getD k (0, 0)))) ++
         (List.range' 0 cmds.length).map (fun k => Event.fork k (some (child os cmds P t1 k))) ++
         (fdsOf P).map Event.close ++ [Event.wait])) := by
  obtain ⟨t1, P, hinv, hlen, heq⟩ := makePipes_ok os s.fds (cmds.length - 1)
    (s.log (Event.pipeline cmds)) [] (PipesInv_nil s.fds) (by intro i hi; apply hp; simpa using hi)
  simp only [List.length_nil, List.nil_append] at heq hinv
  have hS : ∃ S : Shell, S = Shell.mk t1 s.cwd
      ((s.log (Event.pipeline cmds)).trace ++
        (List.range' 0 (cmds.length - 1)).map (fun k => Event.pipe k (some (P.getD k (0, 0)))) ++
        (List.range' 0 cmds.length).map (fun k => Event.fork k (some (child os cmds P t1 k)))) :=
    ⟨_, rfl⟩
  obtain ⟨S, hS⟩ := hS
  obtain ⟨hc1, hc2, hc3⟩ := closePipes_eq P S
  refine ⟨t1, P, (closePipes P S).log Event.wait, hinv, hlen, ?_, ?_, ?_, ?_⟩
  · unfold pipeline
    have hne : ¬ cmds.length = 0 := by omega
    simp only [hne, if_false, heq]
    rw [forkAll_ok os cmds P cmds.length 0 _ (by intro k hk; apply hf; omega)]
    simp only [ne_eq, not_true_eq_false, if_false]
    rw [hS]
    rfl
  · simp only [Shell.log]
    rw [hc1, hS]
  · intro fd
    simp only [Shell.log]
    rw [hc3 fd, hS]
  · simp only [Shell.log]
    rw [hc2, hS]
    simp [Shell.log]

theorem spawned_append (tr1 tr2 : List Event) :
    spawned (tr1 ++ tr2) = spawned tr1 ++ spawned tr2 := by
  induction tr1 with
  | nil => simp [spawned]
  | cons e es ih =>
    cases e with
    | fork i c =>
      cases c with
      | none => simpa [spawned] using ih
      | some c => simpa [spawned] using ih
    | _ => simpa [spawned] using ih

theorem spawned_map_fork (g : Nat → Child) (l : List Nat) :
    spawned (l.map (fun k => Event.fork k (some (g k)))) = l.map g := by
  induction l with
  | nil => simp [spawned]
  | cons a l ih => simp [spawned, ih]

theorem spawned_map_pipe (g : Nat → Option (Nat × Nat)) (l : List Nat) :
    spawned (l.map (fun k => Event.pipe k (g k))) = [] := by
  induction l with
  | nil => simp [spawned]
  | cons a l ih => simp [spawned, ih]

theorem spawned_map_close (l : List Nat) : spawned (l.map Event.close) = [] := by
  induction l with
  | nil => simp [spawned]
  | cons a l ih => simp [spawned, ih]

theorem newEvents_of_trace (s s1 : Shell) (evs : List Event) (h : s1.trace = s.trace ++ evs) :
    newEvents s s1 = evs := by
  unfold newEvents
  rw [h, List.drop_left]

/-- The children of a successful `pipeline` are those of stages `0 .. num_cmds - 1`, each forked
from the table `t1` that holds all the pipes. -/
theorem pipeline_children (os : PipeOS) (cmds : List (List Str)) (s : Shell)
    (hN : 1 ≤ cmds.length) (hp : ∀ i, i < cmds.length - 1 → os.pipeOk i = true)
    (hf : ∀ i, i < cmds.length → os.forkOk i = true) :
    ∃ (t1 : FdTable) (P : List (Nat × Nat)) (s1 : Shell),
      PipesInv s.fds t1 P ∧ P.length = cmds.length - 1 ∧
      pipeline os cmds s = Outcome.ret 0 s1 ∧
      spawned (newEvents s s1) = (List.range' 0 cmds.length).map (child os cmds P t1) := by
  obtain ⟨t1, P, s1, hinv, hlen, hret, -, -, htr⟩ := pipeline_ok os cmds s hN hp hf
  refine ⟨t1, P, s1, hinv, hlen, hret, ?_⟩
  rw [newEvents_of_trace s s1 _ htr]
  have h0 : ∀ es, spawned (Event.pipeline cmds :: es) = spawned es := fun es => rfl
  rw [h0, spawned_append, spawned_append, spawned_append, spawned_map_pipe, spawned_map_close,
    spawned_map_fork]
  simp [spawned]

/-- C8: when every `pipe()` and `fork()` succeeds, `pipeline` returns after the parent has closed
both ends of each of the `num_cmds - 1` pipes it created, the closes coming right before the
wait; every descriptor is then open or closed exactly as before the call, and refers to what it
referred to. -/
theorem pipeline_restores_descriptors (os : PipeOS) (cmds : List (List Str)) (s : Shell)
    (hN : 1 ≤ cmds.length) (hp : ∀ i, i < cmds.length - 1 → os.pipeOk i = true)
    (hf : ∀ i, i < cmds.length → os.forkOk i = true) :
    ∃ (s1 : Shell) (P : List (Nat × Nat)) (before : List Event),
      pipeline os cmds s = Outcome.ret 0 s1 ∧ P.length = cmds.length - 1 ∧
      (∀ j, j < P.length → Event.pipe j (some (P.getD j (0, 0))) ∈ before) ∧
      newEvents s s1 = before ++ (fdsOf P).map Event.close ++ [Event.wait] ∧
      ∀ fd, s1.fds.get fd = s.fds.get fd := by
  obtain ⟨t1, P, s1, hinv, hlen, hret, -, hget, htr⟩ := pipeline_ok os cmds s hN hp hf
  refine ⟨s1, P, Event.pipeline cmds ::
    ((List.range' 0 (cmds.length - 1)).map (fun k => Event.pipe k (some (P.getD k (0, 0)))) ++
     (List.range' 0 cmds.length).map (fun k => Event.fork k (some (child os cmds P t1 k)))),
    hret, hlen, ?_, ?_, ?_⟩
  · intro j hj
    apply List.mem_cons_of_mem
    apply List.mem_append_left
    rw [List.mem_map]
    exact ⟨j, by simp [List.mem_range']; omega, rfl⟩
  · rw [newEvents_of_trace s s1 _ htr]
    simp
  · intro fd
    rw [hget fd]
    by_cases hm : fd ∈ fdsOf P
    · rw [if_pos hm, hinv.2.2 fd hm]
    · rw [if_neg hm, hinv.1 fd hm]

/-- The three-stage pipeline `/bin/ls | /bin/cat | /bin/cat` leaves the descriptors as they were. -/
theorem pipeline_restores_descriptors_witness :
    ∃ (s1 : Shell) (P : List (Nat × Nat)) (before : List Event),
      pipeline okOS lsCatCat shell0 = Outcome.ret 0 s1 ∧ P.length = lsCatCat.length - 1 ∧
      (∀ j, j < P.length → Event.pipe j (some (P.getD j (0, 0))) ∈ before) ∧
      newEvents shell0 s1 = before ++ (fdsOf P).map Event.close ++ [Event.wait] ∧
      ∀ fd, s1.fds.get fd = shell0.fds.get fd :=
  pipeline_restores_descriptors okOS lsCatCat shell0 (by decide) (fun _ _ => rfl)
    (fun _ _ => rfl)

/-! ### The child side of `pipeline` -/

/-- With descriptors 0 and 1 open before the call, no pipe end sits in descriptor 0 or 1, and 0
and 1 still refer to what they referred to. -/
theorem PipesInv.std {t0 t1 : FdTable} {P : List (Nat × Nat)} (hinv : PipesInv t0 t1 P)
    (h0 : t0.get 0 ≠ none) (h1 : t0.get 1 ≠ none) :
    t1.get 0 = t0.get 0 ∧ t1.get 1 = t0.get 1 ∧
    ∀ j, j < P.length →
      (P.getD j (0, 0)).1 ≠ 0 ∧ (P.getD j (0, 0)).1 ≠ 1 ∧
      (P.getD j (0, 0)).2 ≠ 0 ∧ (P.getD j (0, 0)).2 ≠ 1 := by
  have hn0 : (0 : Nat) ∉ fdsOf P := fun hm => h0 (hinv.2.2 0 hm)
  have hn1 : (1 : Nat) ∉ fdsOf P := fun hm => h1 (hinv.2.2 1 hm)
  refine ⟨hinv.1 0 hn0, hinv.1 1 hn1, ?_⟩
  intro j hj
  have hm := mem_fdsOf_getD P j hj
  exact ⟨fun e => hn0 (e ▸ hm.1), fun e => hn1 (e ▸ hm.1), fun e => hn0 (e ▸ hm.2),
    fun e => hn1 (e ▸ hm.2)⟩

/-- Ends of different pipes, and the two ends of one pipe, sit in different descriptors. -/
theorem PipesInv.distinct {t0 t1 : FdTable} {P : List (Nat × Nat)} (hinv : PipesInv t0 t1 P)
    (j k : Nat) (hj : j < P.length) (hk : k < P.length) :
    (P.getD j (0, 0)).1 ≠ (P.getD k (0, 0)).2 ∧
    (j ≠ k → (P.getD j (0, 0)).1 ≠ (P.getD k (0, 0)).1 ∧
             (P.getD j (0, 0)).2 ≠ (P.getD k (0, 0)).2) := by
  have aj := hinv.2.1 j hj
  have ak := hinv.2.1 k hk
  refine ⟨?_, fun hne => ⟨?_, ?_⟩⟩
  · intro e
    rw [e, ak.2] at aj
    cases aj.1
  · intro e
    rw [e, ak.1] at aj
    have := aj.1
    simp only [Option.some.injEq, Obj.pipeRead.injEq] at this
    exact hne this.symm
  · intro e
    rw [e, ak.2] at aj
    have := aj.2
    simp only [Option.some.injEq, Obj.pipeWrite.injEq] at this
    exact hne this.symm

/-- The table of the child of stage `i` after the block under `if (i > 0)`. -/
theorem child_input_get {t0 t1 : FdTable} {P : List (Nat × Nat)} (hinv : PipesInv t0 t1 P)
    (i fd : Nat) (hiP : i - 1 < P.length) :
    (sysClose (sysDup2 (sysClose t1 (P.getD (i - 1) (0, 0)).2) (P.getD (i - 1) (0, 0)).1
        STDIN_FILENO) (P.getD (i - 1) (0, 0)).1).get fd
      = if fd = (P.getD (i - 1) (0, 0)).1 then none
        else if fd = STDIN_FILENO then some (Obj.pipeRead (i - 1))
        else if fd = (P.getD (i - 1) (0, 0)).2 then none else t1.get fd :=
  get_wire t1 _ _ _ fd _ (hinv.distinct (i - 1) (i - 1) hiP hiP).1 (hinv.2.1 (i - 1) hiP).1

/-- What the block under `if (i > 0)` leaves in descriptors 0 and 1 and in the other pipes. -/
theorem child_input_spec {t0 t1 : FdTable} {P : List (Nat × Nat)} (hinv : PipesInv t0 t1 P)
    (h0 : t0.get 0 ≠ none) (h1 : t0.get 1 ≠ none) (i : Nat) (hiP : 0 < i → i - 1 < P.length) :
    ∃ F : FdTable,
      F = (if i > 0 then
            sysClose (sysDup2 (sysClose t1 (P.getD (i - 1) (0, 0)).2) (P.getD (i - 1) (0, 0)).1
              STDIN_FILENO) (P.getD (i - 1) (0, 0)).1
          else t1) ∧
      F.get 0 = (if 0 < i then some (Obj.pipeRead (i - 1)) else t0.get 0) ∧
      F.get 1 = t0.get 1 ∧
      ∀ j, j < P.length → (0 < i → j ≠ i - 1) →
        F.get (P.getD j (0, 0)).1 = some (Obj.pipeRead j) ∧
        F.get (P.getD j (0, 0)).2 = some (Obj.pipeWrite j) := by
  obtain ⟨s0, s1, sP⟩ := hinv.std h0 h1
  refine ⟨_, rfl, ?_, ?_, ?_⟩
  · by_cases hi : 0 < i
    · have hP := sP (i - 1) (hiP hi)
      rw [if_pos hi, if_pos hi, child_input_get hinv i 0 (hiP hi), if_neg (Ne.symm hP.1)]
      simp [STDIN_FILENO]
    · rw [if_neg hi, if_neg hi, s0]
  · by_cases hi : 0 < i
    · have hP := sP (i - 1) (hiP hi)
      rw [if_pos hi, child_input_get hinv i 1 (hiP hi), if_neg (Ne.symm hP.2.1),
        if_neg (by simp [STDIN_FILENO]), if_neg (Ne.symm hP.2.2.2), s1]
    · rw [if_neg hi, s1]
  · intro j hj hne
    by_cases hi : 0 < i
    · have hd := hinv.distinct j (i - 1) hj (hiP hi)
      have hd2 := hinv.distinct (i - 1) j (hiP hi) hj
      have hPj := sP j hj
      have hji := hd.2 (hne hi)
      rw [if_pos hi, child_input_get hinv i _ (hiP hi), child_input_get hinv i _ (hiP hi),
        if_neg hji.1, if_neg (by simpa [STDIN_FILENO] using hPj.1), if_neg hd.1,
        if_neg (Ne.symm hd2.1), if_neg (by simpa [STDIN_FILENO] using hPj.2.2.1), if_neg hji.2]
      exact hinv.2.1 j hj
    · rw [if_neg hi]
      exact hinv.2.1 j hj

/-- A stage that is not the last: descriptor 1 becomes the write end of its own pipe, no file is
opened, and `execv` gets the stage's argument array as it is. -/
theorem child_nonlast (os : PipeOS) (cmds : List (List Str)) {t0 t1 : FdTable}
    {P : List (Nat × Nat)} (hinv : PipesInv t0 t1 P) (hlen : P.length = cmds.length - 1)
    (h0 : t0.get 0 ≠ none) (h1 : t0.get 1 ≠ none) (i : Nat) (hi : i < cmds.length - 1) :
    (child os cmds P t1 i).stage = i ∧
    (child os cmds P t1 i).fds.get 0
      = (if 0 < i then some (Obj.pipeRead (i - 1)) else t0.get 0) ∧
    (child os cmds P t1 i).fds.get 1 = some (Obj.pipeWrite i) ∧
    (child os cmds P t1 i).exec = some ((cmds.getD i []).head?, cmds.getD i []) ∧
    ∀ path flags mode ret, Sys.open_ path flags mode ret ∉ (child os cmds P t1 i).calls := by
  obtain ⟨F, hF, hF0, hF1, hFP⟩ := child_input_spec hinv h0 h1 i (fun _ => by omega)
  obtain ⟨-, -, sP⟩ := hinv.std h0 h1
  have hiP : i < P.length := by omega
  have hout := hFP i hiP (fun hpos => by omega)
  have hd := hinv.distinct i i hiP hiP
  have hPi := sP i hiP
  unfold child
  simp only [hi, if_true, ← hF]
  unfold childExec
  simp only
  refine ⟨trivial, ?_, ?_, trivial, ?_⟩
  · rw [get_wire F _ _ _ 0 _ (Ne.symm hd.1) hout.2, if_neg (Ne.symm hPi.2.2.1),
      if_neg (by simp [STDOUT_FILENO]), if_neg (Ne.symm hPi.1), hF0]
  · rw [get_wire F _ _ _ 1 _ (Ne.symm hd.1) hout.2, if_neg (Ne.symm hPi.2.2.2),
      if_pos (by simp [STDOUT_FILENO])]
  · intro path flags mode ret
    by_cases hpos : i > 0 <;> by_cases hx : os.execOk i = true <;> simp [hpos, hx]

/-- The last stage when its trailing tokens do not ask for a redirection: descriptor 1 is the
one inherited, no file is opened, `execv` gets the whole argument array. -/
theorem child_last_plain (os : PipeOS) (cmds : List (List Str)) {t0 t1 : FdTable}
    {P : List (Nat × Nat)} (hinv : PipesInv t0 t1 P) (hlen : P.length = cmds.length - 1)
    (h0 : t0.get 0 ≠ none) (h1 : t0.get 1 ≠ none) (i : Nat) (hi : i = cmds.length - 1)
    (hno : ¬ ((cmds.getD i []).length > 2 ∧
      (cmds.getD i []).get? ((cmds.getD i []).length - 2) = some (cstr ">"))) :
    (child os cmds P t1 i).stage = i ∧
    (child os cmds P t1 i).fds.get 0
      = (if 0 < i then some (Obj.pipeRead (i - 1)) else t0.get 0) ∧
    (child os cmds P t1 i).fds.get 1 = t0.get 1 ∧
    (child os cmds P t1 i).exec = some ((cmds.getD i []).head?, cmds.getD i []) ∧
    ∀ path flags mode ret, Sys.open_ path flags mode ret ∉ (child os cmds P t1 i).calls := by
  obtain ⟨F, hF, hF0, hF1, -⟩ := child_input_spec hinv h0 h1 i (fun _ => by omega)
  have hlast : ¬ i < cmds.length - 1 := by omega
  unfold child
  simp only [hlast, if_false, ← hF, getnumargs, hno]
  unfold childExec
  simp only
  refine ⟨trivial, hF0, hF1, trivial, ?_⟩
  intro path flags mode ret
  by_cases hpos : i > 0 <;> by_cases hx : os.execOk i = true <;> simp [hpos, hx]

/-- The last stage when its trailing tokens are `>` and a path, at least one token coming
before them: the path is opened with `O_WRONLY | O_CREAT | O_TRUNC` and mode 0644; when the
open succeeds the file becomes descriptor 1, the descriptor it was opened on is closed, and
`execv` gets the argument array without the two trailing tokens. -/
theorem child_last_redirect (os : PipeOS) (cmds : List (List Str)) {t0 t1 : FdTable}
    {P : List (Nat × Nat)} (hinv : PipesInv t0 t1 P) (hlen : P.length = cmds.length - 1)
    (h0 : t0.get 0 ≠ none) (h1 : t0.get 1 ≠ none) (i : Nat) (hi : i = cmds.length - 1)
    (hn : (cmds.getD i []).length > 2)
    (hgt : (cmds.getD i []).get? ((cmds.getD i []).length - 2) = some (cstr ">")) :
    (child os cmds P t1 i).stage = i ∧
    (∃ ret, Sys.open_ ((cmds.getD i []).getD ((cmds.getD i []).length - 1) [])
        (O_WRONLY ||| O_CREAT ||| O_TRUNC) 0o644 ret ∈ (child os cmds P t1 i).calls) ∧
    (os.openOk i = true →
      (child os cmds P t1 i).fds.get 0
        = (if 0 < i then some (Obj.pipeRead (i - 1)) else t0.get 0) ∧
      (child os cmds P t1 i).fds.get 1
        = some (Obj.file ((cmds.getD i []).getD ((cmds.getD i []).length - 1) [])
            (O_WRONLY ||| O_CREAT ||| O_TRUNC) 0o644) ∧
      (∀ fd path flags mode, 1 < fd →
        (child os cmds P t1 i).fds.get fd ≠ some (Obj.file path flags mode)
          ∨ t1.get fd = some (Obj.file path flags mode)) ∧
      (child os cmds P t1 i).exec
        = some ((cmds.getD i []).head?,
                (cmds.getD i []).take ((cmds.getD i []).length - 2))) ∧
    (os.openOk i = false →
      (child os cmds P t1 i).exec = none ∧
      (child os cmds P t1 i).fds.get 1 = t0.get 1) := by
  obtain ⟨F, hF, hF0, hF1, -⟩ := child_input_spec hinv h0 h1 i (fun _ => by omega)
  have hlast : ¬ i < cmds.length - 1 := by omega
  have hfree := get_lowestFree F
  have hofd0 : lowestFree F ≠ 0 := by
    intro e
    rw [e, hF0] at hfree
    by_cases hpos : 0 < i
    · simp [hpos] at hfree
    · rw [if_neg hpos] at hfree; exact h0 hfree
  have hofd1 : lowestFree F ≠ 1 := by
    intro e
    rw [e, hF1] at hfree
    exact h1 hfree
  have hcond : (cmds.getD i []).length > 2 ∧
      (cmds.getD i []).get? ((cmds.getD i []).length - 2) = some (cstr ">") := ⟨hn, hgt⟩
  unfold child
  simp only [hlast, if_false, ← hF, getnumargs, hcond, and_self, if_true]
  cases hopen : os.openOk i with
  | false =>
    simp only [Bool.false_eq_true, if_false]
    exact ⟨trivial, ⟨-1, by simp⟩, fun h => h.elim, fun _ => ⟨trivial, hF1⟩⟩
  | true =>
    simp only [if_true]
    unfold childExec
    simp only
    have hput : (F.put (lowestFree F) (some (Obj.file
        ((cmds.getD i []).getD ((cmds.getD i []).length - 1) [])
        (O_WRONLY ||| O_CREAT ||| O_TRUNC) 0o644))).get (lowestFree F) = some (Obj.file
        ((cmds.getD i []).getD ((cmds.getD i []).length - 1) [])
        (O_WRONLY ||| O_CREAT ||| O_TRUNC) 0o644) := by
      rw [get_put, if_pos rfl]
    refine ⟨trivial, ⟨(lowestFree F : Int), by simp⟩, fun _ => ⟨?_, ?_, ?_, ?_⟩,
      fun h => by cases h⟩
    · rw [get_sysClose, if_neg (Ne.symm hofd0), get_sysDup2 _ _ _ _ _ hput,
        if_neg (by simp [STDOUT_FILENO]), get_put, if_neg (Ne.symm hofd0), hF0]
    · rw [get_sysClose, if_neg (Ne.symm hofd1), get_sysDup2 _ _ _ _ _ hput,
        if_pos (by simp [STDOUT_FILENO])]
    · intro fd path flags mode hfd
      rw [get_sysClose, get_sysDup2 _ _ _ _ _ hput, get_put]
      by_cases e : fd = lowestFree F
      · left; rw [if_pos e]; exact fun h => by cases h
      · rw [if_neg e, if_neg (by simp [STDOUT_FILENO]; omega), if_neg e]
        by_cases hx : F.get fd = some (Obj.file path flags mode)
        · right
          rw [hF] at hx
          by_cases hpos : i > 0
          · rw [if_pos hpos, child_input_get hinv i fd (by omega)] at hx
            split at hx
            · cases hx
            · split at hx
              · cases hx
              · split at hx
                · cases hx
                · exact hx
          · rw [if_neg hpos] at hx; exact hx
        · left; exact hx
    · congr 1
      congr 1
      cases hargs : cmds.getD i [] with
      | nil => rfl
      | cons a as =>
        rw [hargs] at hn
        simp only [List.length_cons] at hn ⊢
        have : as.length + 1 - 2 = (as.length - 2) + 1 := by omega
        rw [this]
        rfl

theorem child_stage (os : PipeOS) (cmds : List (List Str)) (P : List (Nat × Nat))
    (t : FdTable) (i : Nat) : (child os cmds P t i).stage = i := by
  unfold child
  simp only
  split
  · rfl
  · split
    · split <;> rfl
    · rfl

/-- C5: when every `pipe()` and `fork()` succeeds (descriptors 0 and 1 being open in the
interpreter), one child per stage is forked, in order; the child of stage `i` has the read end
of pipe `i - 1` as descriptor 0 when `i > 0` and the inherited descriptor 0 when `i = 0`; it has
the write end of pipe `i` as descriptor 1 when `i < N - 1`, and then opens no file and passes
its argument array to `execv` unchanged; the last stage has the inherited descriptor 1 or a
file, never a pipe. -/
theorem pipeline_wires_stages (os : PipeOS) (cmds : List (List Str)) (s : Shell)
    (hN : 1 ≤ cmds.length) (hp : ∀ i, i < cmds.length - 1 → os.pipeOk i = true)
    (hf : ∀ i, i < cmds.length → os.forkOk i = true)
    (h0 : s.fds.get STDIN_FILENO ≠ none) (h1 : s.fds.get STDOUT_FILENO ≠ none) :
    ∃ s1 : Shell, pipeline os cmds s = Outcome.ret 0 s1 ∧
      (spawned (newEvents s s1)).map Child.stage = List.range' 0 cmds.length ∧
      ∀ c ∈ spawned (newEvents s s1),
        (0 < c.stage → c.fds.get STDIN_FILENO = some (Obj.pipeRead (c.stage - 1))) ∧
        (c.stage = 0 → c.fds.get STDIN_FILENO = s.fds.get STDIN_FILENO) ∧
        (c.stage < cmds.length - 1 →
          c.fds.get STDOUT_FILENO = some (Obj.pipeWrite c.stage) ∧
          (∀ path flags mode ret, Sys.open_ path flags mode ret ∉ c.calls) ∧
          c.exec = some ((cmds.getD c.stage []).head?, cmds.getD c.stage [])) ∧
        (c.stage = cmds.length - 1 →
          c.fds.get STDOUT_FILENO = s.fds.get STDOUT_FILENO ∨
          ∃ path flags mode, c.fds.get STDOUT_FILENO = some (Obj.file path flags mode)) := by
  obtain ⟨t1, P, s1, hinv, hlen, hret, hsp⟩ := pipeline_children os cmds s hN hp hf
  refine ⟨s1, hret, ?_, ?_⟩
  · rw [hsp, List.map_map]
    have : (Child.stage ∘ child os cmds P t1) = id := by
      funext i
      exact child_stage os cmds P t1 i
    rw [this, List.map_id]
  · intro c hc
    rw [hsp, List.mem_map] at hc
    obtain ⟨i, hi, rfl⟩ := hc
    rw [List.mem_range'_1] at hi
    rw [child_stage]
    by_cases hlast : i < cmds.length - 1
    · obtain ⟨-, c0, c1, cx, co⟩ := child_nonlast os cmds hinv hlen h0 h1 i hlast
      refine ⟨fun hpos => ?_, fun hz => ?_, fun _ => ⟨c1, co, cx⟩, fun he => by omega⟩
      · rw [STDIN_FILENO, c0, if_pos hpos]
      · rw [STDIN_FILENO, c0, if_neg (by omega)]
    · have hi' : i = cmds.length - 1 := by omega
      by_cases hcond : (cmds.getD i []).length > 2 ∧
          (cmds.getD i []).get? ((cmds.getD i []).length - 2) = some (cstr ">")
      · obtain ⟨-, -, hok, hfail⟩ :=
          child_last_redirect os cmds hinv hlen h0 h1 i hi' hcond.1 hcond.2
        cases hopen : os.openOk i with
        | true =>
          obtain ⟨c0, c1, -, -⟩ := hok hopen
          refine ⟨fun hpos => ?_, fun hz => ?_, fun h => absurd h hlast,
            fun _ => Or.inr ⟨_, _, _, c1⟩⟩
          · rw [STDIN_FILENO, c0, if_pos hpos]
          · rw [STDIN_FILENO, c0, if_neg (by omega)]
        | false =>
          obtain ⟨-, c1⟩ := hfail hopen
          obtain ⟨F, hF, hF0, -, -⟩ := child_input_spec hinv h0 h1 i (fun _ => by omega)
          have c0 : (child os cmds P t1 i).fds.get 0
              = (if 0 < i then some (Obj.pipeRead (i - 1)) else s.fds.get 0) := by
            unfold child
            simp only [hlast, if_false, ← hF, getnumargs, hcond, and_self, if_true, hopen,
              Bool.false_eq_true]
            exact hF0
          refine ⟨fun hpos => ?_, fun hz => ?_, fun h => absurd h hlast, fun _ => Or.inl c1⟩
          · rw [STDIN_FILENO, c0, if_pos hpos]
          · rw [STDIN_FILENO, c0, if_neg (by omega)]
      · obtain ⟨-, c0, c1, -, -⟩ := child_last_plain os cmds hinv hlen h0 h1 i hi' hcond
        refine ⟨fun hpos => ?_, fun hz => ?_, fun h => absurd h hlast, fun _ => Or.inl c1⟩
        · rw [STDIN_FILENO, c0, if_pos hpos]
        · rw [STDIN_FILENO, c0, if_neg (by omega)]

/-- The wiring of the three stages of `/bin/ls | /bin/cat | /bin/cat`. -/
theorem pipeline_wires_stages_witness :
    ∃ s1 : Shell, pipeline okOS lsCatCat shell0 = Outcome.ret 0 s1 ∧
      (spawned (newEvents shell0 s1)).map Child.stage = List.range' 0 lsCatCat.length ∧
      ∀ c ∈ spawned (newEvents shell0 s1),
        (0 < c.stage → c.fds.get STDIN_FILENO = some (Obj.pipeRead (c.stage - 1))) ∧
        (c.stage = 0 → c.fds.get STDIN_FILENO = shell0.fds.get STDIN_FILENO) ∧
        (c.stage < lsCatCat.length - 1 →
          c.fds.get STDOUT_FILENO = some (Obj.pipeWrite c.stage) ∧
          (∀ path flags mode ret, Sys.open_ path flags mode ret ∉ c.calls) ∧
          c.exec = some ((lsCatCat.getD c.stage []).head?, lsCatCat.getD c.stage [])) ∧
        (c.stage = lsCatCat.length - 1 →
          c.fds.get STDOUT_FILENO = shell0.fds.get STDOUT_FILENO ∨
          ∃ path flags mode, c.fds.get STDOUT_FILENO = some (Obj.file path flags mode)) :=
  pipeline_wires_stages okOS lsCatCat shell0 (by decide) (fun _ _ => rfl) (fun _ _ => rfl)
    (by decide) (by decide)

/-- Redirection of the last stage in an interpreter that has descriptors 0 and 1 open: in a
pipeline whose `pipe()` and `fork()` calls succeed, the child of the last stage, with tokens
`t0 .. t(n-1)`: if `n >= 3` and
`t(n-2)` is `>`, it calls `open(t(n-1), O_WRONLY | O_CREAT | O_TRUNC, 0644)` and, the open
succeeding, has that file as descriptor 1 and calls `execv` with `t0 .. t(n-3)`; if the
second-to-last token is not `>`, it opens no file and calls `execv` with all the tokens. -/
theorem last_stage_redirection (os : PipeOS) (cmds : List (List Str)) (s : Shell)
    (hN : 1 ≤ cmds.length) (hp : ∀ i, i < cmds.length - 1 → os.pipeOk i = true)
    (hf : ∀ i, i < cmds.length → os.forkOk i = true)
    (h0 : s.fds.get STDIN_FILENO ≠ none) (h1 : s.fds.get STDOUT_FILENO ≠ none) :
    ∃ (s1 : Shell) (c : Child), pipeline os cmds s = Outcome.ret 0 s1 ∧
      c ∈ spawned (newEvents s s1) ∧ c.stage = cmds.length - 1 ∧
      (3 ≤ (cmds.getD (cmds.length - 1) []).length →
        (cmds.getD (cmds.length - 1) []).get? ((cmds.getD (cmds.length - 1) []).length - 2)
          = some (cstr ">") →
        (∃ ret, Sys.open_
            ((cmds.getD (cmds.length - 1) []).getD
              ((cmds.getD (cmds.length - 1) []).length - 1) [])
            (O_WRONLY ||| O_CREAT ||| O_TRUNC) 0o644 ret ∈ c.calls) ∧
        (os.openOk (cmds.length - 1) = true →
          c.fds.get STDOUT_FILENO = some (Obj.file
            ((cmds.getD (cmds.length - 1) []).getD
              ((cmds.getD (cmds.length - 1) []).length - 1) [])
            (O_WRONLY ||| O_CREAT ||| O_TRUNC) 0o644) ∧
          c.exec = some ((cmds.getD (cmds.length - 1) []).head?,
            (cmds.getD (cmds.length - 1) []).take
              ((cmds.getD (cmds.length - 1) []).length - 2)))) ∧
      (¬ (2 ≤ (cmds.getD (cmds.length - 1) []).length ∧
          (cmds.getD (cmds.length - 1) []).get? ((cmds.getD (cmds.length - 1) []).length - 2)
            = some (cstr ">")) →
        (∀ path flags mode ret, Sys.open_ path flags mode ret ∉ c.calls) ∧
        c.fds.get STDOUT_FILENO = s.fds.get STDOUT_FILENO ∧
        c.exec = some ((cmds.getD (cmds.length - 1) []).head?,
          cmds.getD (cmds.length - 1) [])) := by
  obtain ⟨t1, P, s1, hinv, hlen, hret, hsp⟩ := pipeline_children os cmds s hN hp hf
  refine ⟨s1, child os cmds P t1 (cmds.length - 1), hret, ?_, child_stage _ _ _ _ _, ?_, ?_⟩
  · rw [hsp, List.mem_map]
    exact ⟨cmds.length - 1, by rw [List.mem_range'_1]; omega, rfl⟩
  · intro hn hgt
    obtain ⟨-, hopen, hok, -⟩ :=
      child_last_redirect os cmds hinv hlen h0 h1 (cmds.length - 1) rfl (by omega) hgt
    refine ⟨hopen, fun ho => ?_⟩
    obtain ⟨-, c1, -, cx⟩ := hok ho
    exact ⟨c1, cx⟩
  · intro hno
    obtain ⟨-, -, c1, cx, co⟩ :=
      child_last_plain os cmds hinv hlen h0 h1 (cmds.length - 1) rfl
        (fun h => hno ⟨by omega, h.2⟩)
    exact ⟨co, c1, cx⟩

/-- The command `/bin/echo hi > out.txt`: `out.txt` becomes descriptor 1 and `execv` gets
`/bin/echo hi`. -/
theorem last_stage_redirection_witness :
    ∃ (s1 : Shell) (c : Child), pipeline okOS echoToFile shell0 = Outcome.ret 0 s1 ∧
      c ∈ spawned (newEvents shell0 s1) ∧ c.stage = 0 ∧
      (∃ ret, Sys.open_ (cstr "out.txt") (O_WRONLY ||| O_CREAT ||| O_TRUNC) 0o644 ret
        ∈ c.calls) ∧
      c.fds.get STDOUT_FILENO
        = some (Obj.file (cstr "out.txt") (O_WRONLY ||| O_CREAT ||| O_TRUNC) 0o644) ∧
      c.exec = some (some (cstr "/bin/echo"), [cstr "/bin/echo", cstr "hi"]) := by
  obtain ⟨s1, c, hret, hc, hst, hred, -⟩ :=
    last_stage_redirection okOS echoToFile shell0 (by decide) (fun _ _ => rfl) (fun _ _ => rfl)
      (by decide) (by decide)
  obtain ⟨hopen, hok⟩ := hred (by decide) (by decide)
  obtain ⟨h1, hx⟩ := hok rfl
  exact ⟨s1, c, hret, hc, hst, hopen, h1, hx⟩

/-- C6: in an interpreter whose descriptor 1 is closed, the child of `/bin/echo hi > out.txt`
gets descriptor 1 from `open`; `dup2(1, 1)` changes nothing and `close(output_fd)` then closes
the file: the child calls `execv` without a standard output.  With descriptor 1 open the same
command has `out.txt` as its standard output. -/
theorem redirection_lost_when_stdout_closed :
    (spawned (pipeline okOS echoToFile shellNoStdout).state.trace).map (fun c => c.calls)
      = [[Sys.open_ (cstr "out.txt") (O_WRONLY ||| O_CREAT ||| O_TRUNC) 0o644 1,
          Sys.dup2 1 STDOUT_FILENO, Sys.close 1,
          Sys.execv (some (cstr "/bin/echo")) [cstr "/bin/echo", cstr "hi"]]] ∧
    (spawned (pipeline okOS echoToFile shellNoStdout).state.trace).map
        (fun c => c.fds.get STDOUT_FILENO)
      = [none] ∧
    (spawned (pipeline okOS echoToFile shellNoStdout).state.trace).map (fun c => c.exec)
      = [some (some (cstr "/bin/echo"), [cstr "/bin/echo", cstr "hi"])] ∧
    (spawned (pipeline okOS echoToFile shell0).state.trace).map
        (fun c => c.fds.get STDOUT_FILENO)
      = [some (Obj.file (cstr "out.txt") (O_WRONLY ||| O_CREAT ||| O_TRUNC) 0o644)] := by
  decide

/-- C7: in the three-stage pipeline `/bin/ls | /bin/cat | /bin/cat` (descriptors 0, 1, 2 open
before), the child of stage 0 calls `execv` with both ends of pipe 1 still open in descriptors
5 and 6, and the child of stage 2 with both ends of pipe 0 still open in descriptors 3 and 4:
a child closes only the pipes next to its own stage. -/
theorem stage_keeps_other_pipes_open :
    (spawned (pipeline okOS lsCatCat shell0).state.trace).map
        (fun c => (c.stage, c.fds.get 3, c.fds.get 4, c.fds.get 5, c.fds.get 6))
      = [(0, none, none, some (Obj.pipeRead 1), some (Obj.pipeWrite 1)),
         (1, none, none, none, none),
         (2, some (Obj.pipeRead 0), some (Obj.pipeWrite 0), none, none)] := by
  decide

/-! ### Failing `pipe()` and `fork()` -/

theorem errorCount_log (s : Shell) (e : Event) :
    errorCount (s.log e).trace
      = errorCount s.trace + (if e = Event.write STDERR_FILENO error_message then 1 else 0) := by
  unfold errorCount Shell.log
  simp only [List.count_append, List.count_singleton]
  by_cases h : e = Event.write STDERR_FILENO error_message
  · simp [h]
  · have h2 : ¬ (Event.write STDERR_FILENO error_message = e) := fun x => h x.symm
    simp [h, h2]

theorem reportError_trace (s : Shell) :
    errorCount (reportError s).trace = errorCount s.trace + 1 ∧
    (reportError s).trace.getLast? = some (Event.write STDERR_FILENO error_message) := by
  unfold reportError
  rw [errorCount_log]
  simp [Shell.log]

theorem makePipes_err (os : PipeOS) :
    ∀ (n i : Nat) (s : Shell) (P : List (Nat × Nat)),
      ((∃ k, i ≤ k ∧ k < i + n ∧ os.pipeOk k = false) → (makePipes os n i s P).2 = none) ∧
      ((makePipes os n i s P).2 = none →
        errorCount (makePipes os n i s P).1.trace = errorCount s.trace + 1 ∧
        (makePipes os n i s P).1.trace.getLast?
          = some (Event.write STDERR_FILENO error_message)) ∧
      ((makePipes os n i s P).2 ≠ none →
        errorCount (makePipes os n i s P).1.trace = errorCount s.trace) := by
  intro n
  induction n with
  | zero =>
    intro i s P
    refine ⟨?_, ?_, ?_⟩
    · rintro ⟨k, h1, h2, -⟩; omega
    · intro h; simp [makePipes] at h
    · intro _; simp [makePipes]
  | succ n ih =>
    intro i s P
    unfold makePipes
    cases hok : os.pipeOk i with
    | false =>
      simp only [Bool.false_eq_true, if_false]
      refine ⟨fun _ => trivial, fun _ => ?_, fun h => absurd rfl h⟩
      have := reportError_trace (s.log (Event.pipe i none))
      rw [errorCount_log] at this
      simpa using this
    | true =>
      simp only [if_true]
      obtain ⟨a, b, c⟩ := ih (i + 1)
        ({ s with fds := (sysPipe s.fds i).1 }.log (Event.pipe i (some (sysPipe s.fds i).2)))
        (P ++ [(sysPipe s.fds i).2])
      rw [errorCount_log] at b c
      simp only [reduceCtorEq, if_false, Nat.add_zero] at b c
      refine ⟨?_, b, c⟩
      rintro ⟨k, h1, h2, h3⟩
      apply a
      refine ⟨k, ?_, by omega, h3⟩
      by_contra hcon
      have : k = i := by omega
      rw [this, hok] at h3
      cases h3

theorem forkAll_err (os : PipeOS) (cmds : List (List Str)) (P : List (Nat × Nat)) :
    ∀ (n i : Nat) (s : Shell),
      ((∃ k, i ≤ k ∧ k < i + n ∧ os.forkOk k = false) → (forkAll os cmds P n i s).2 = false) ∧
      ((forkAll os cmds P n i s).2 = false →
        errorCount (forkAll os cmds P n i s).1.trace = errorCount s.trace + 1 ∧
        (forkAll os cmds P n i s).1.trace.getLast?
          = some (Event.write STDERR_FILENO error_message)) := by
  intro n
  induction n with
  | zero =>
    intro i s
    refine ⟨?_, ?_⟩
    · rintro ⟨k, h1, h2, -⟩; omega
    · intro h; simp [forkAll] at h
  | succ n ih =>
    intro i s
    unfold forkAll
    cases hok : os.forkOk i with
    | false =>
      simp only [Bool.false_eq_true, if_false]
      refine ⟨fun _ => trivial, fun _ => ?_⟩
      have := reportError_trace (s.log (Event.fork i none))
      rw [errorCount_log] at this
      simpa using this
    | true =>
      simp only [if_true]
      obtain ⟨a, b⟩ := ih (i + 1) (s.log (Event.fork i (some (child os cmds P s.fds i))))
      rw [errorCount_log] at b
      simp only [reduceCtorEq, if_false, Nat.add_zero] at b
      refine ⟨?_, b⟩
      rintro ⟨k, h1, h2, h3⟩
      apply a
      refine ⟨k, ?_, by omega, h3⟩
      by_contra hcon
      have : k = i := by omega
      rw [this, hok] at h3
      cases h3

/-- C9, as the code has it: when a `pipe()` or a `fork()` fails inside `pipeline`, the error
message is written once, as the last thing the interpreter does, and the interpreter process
terminates with status 0; `pipeline` does not return. -/
theorem pipeline_failure_exits (os : PipeOS) (cmds : List (List Str)) (s : Shell)
    (hN : 1 ≤ cmds.length)
    (hfail : (∃ i, i < cmds.length - 1 ∧ os.pipeOk i = false) ∨
             (∃ i, i < cmds.length ∧ os.forkOk i = false)) :
    ∃ s1 : Shell, pipeline os cmds s = Outcome.exited 0 s1 ∧
      errorCount s1.trace = errorCount s.trace + 1 ∧
      s1.trace.getLast? = some (Event.write STDERR_FILENO error_message) := by
  have hne : ¬ cmds.length = 0 := by omega
  have hlog : errorCount (s.log (Event.pipeline cmds)).trace = errorCount s.trace := by
    rw [errorCount_log]; simp
  obtain ⟨pa, pb, pc⟩ := makePipes_err os (cmds.length - 1) 0 (s.log (Event.pipeline cmds)) []
  unfold pipeline
  simp only [hne, if_false]
  cases hmk : makePipes os (cmds.length - 1) 0 (s.log (Event.pipeline cmds)) [] with
  | mk s1 r =>
    rw [hmk] at pa pb pc
    cases r with
    | none =>
      obtain ⟨e1, e2⟩ := pb rfl
      exact ⟨s1, rfl, by rw [e1, hlog], e2⟩
    | some pipe_fds =>
      simp only
      have hforkfail : ∃ k, 0 ≤ k ∧ k < 0 + cmds.length ∧ os.forkOk k = false := by
        rcases hfail with ⟨k, hk, hkf⟩ | ⟨k, hk, hkf⟩
        · have := pa ⟨k, by omega, by omega, hkf⟩
          cases this
        · exact ⟨k, by omega, by omega, hkf⟩
      obtain ⟨fa, fb⟩ := forkAll_err os cmds pipe_fds cmds.length 0 s1
      have hfalse := fa hforkfail
      cases hfk : forkAll os cmds pipe_fds cmds.length 0 s1 with
      | mk s2 ok =>
        rw [hfk] at hfalse fb
        simp only at hfalse
        subst hfalse
        obtain ⟨e1, e2⟩ := fb rfl
        have e3 := pc (by simp)
        simp only at e1 e2 e3
        exact ⟨s2, rfl, by rw [e1, e3, hlog], e2⟩

/-- The pipeline `/bin/ls | /bin/cat | /bin/cat` with a kernel that refuses `pipe()`. -/
theorem pipeline_failure_exits_witness :
    ∃ s1 : Shell, pipeline pipeFailOS lsCatCat shell0 = Outcome.exited 0 s1 ∧
      errorCount s1.trace = errorCount shell0.trace + 1 ∧
      s1.trace.getLast? = some (Event.write STDERR_FILENO error_message) :=
  pipeline_failure_exits pipeFailOS lsCatCat shell0 (by decide)
    (Or.inl ⟨0, by decide, rfl⟩)

/-- C9: with a kernel that refuses `pipe()`, the line `/bin/ls | /bin/cat; pwd` ends the
interpreter inside `pipeline`: the error is written, the process exits with status 0, and the
statement `pwd` is never dispatched.  A failing `fork()` ends it the same way. -/
theorem pipeline_failure_ends_interpreter :
    splitchained pipeFailEnv (cstr "/bin/ls | /bin/cat; pwd\n") shell0
      = Outcome.exited 0
          (splitchained pipeFailEnv (cstr "/bin/ls | /bin/cat; pwd\n") shell0).state ∧
    builtinCalls (splitchained pipeFailEnv (cstr "/bin/ls | /bin/cat; pwd\n") shell0).state.trace
      = [cstr "/bin/ls | /bin/cat"] ∧
    errorCount (splitchained pipeFailEnv (cstr "/bin/ls | /bin/cat; pwd\n") shell0).state.trace
      = 1 ∧
    pipeline forkFailOS lsCatCat shell0
      = Outcome.exited 0 (pipeline forkFailOS lsCatCat shell0).state := by
  decide

/-! ### The loop directive -/

theorem trimleading_eq (line : Str) : trimleading line = line.dropWhile isDelim := by
  have h : ∀ l : Str, l.drop (l.takeWhile isDelim).length = l.dropWhile isDelim := by
    intro l
    induction l with
    | nil => rfl
    | cons a l ih =>
      cases ha : isDelim a with
      | true => simp [List.takeWhile_cons, List.dropWhile_cons, ha, ih]
      | false => simp [List.takeWhile_cons, List.dropWhile_cons, ha]
  unfold trimleading
  simp only
  split
  · exact h line
  · rename_i hz
    have hz2 : (line.takeWhile isDelim).length = 0 := by simpa using hz
    rw [← h line, hz2, List.drop_zero]

theorem dropWhile_blanks_append (ws rest : Str) (hws : ∀ c ∈ ws, isDelim c = true)
    (hrest : ∀ c r, rest = c :: r → isDelim c = false) :
    (ws ++ rest).dropWhile isDelim = rest := by
  rw [List.dropWhile_append_of_pos hws]
  cases rest with
  | nil => rfl
  | cons c r =>
    have := hrest c r rfl
    rw [List.dropWhile_cons_of_neg (by simp [this])]

/-- `strtok` on a string that starts with a token followed by a blank or by the end. -/
theorem strtok_token (tok rest : Str) (hne : tok ≠ [])
    (htok : ∀ c ∈ tok, isDelim c = false) (hrest : ∀ c r, rest = c :: r → isDelim c = true) :
    strtok (tok ++ rest) = some (tok, rest.drop 1) := by
  cases tok with
  | nil => exact absurd rfl hne
  | cons a as =>
    have ha : isDelim a = false := htok a (by simp)
    have hd : ((a :: as) ++ rest).dropWhile isDelim = a :: (as ++ rest) := by
      rw [List.cons_append, List.dropWhile_cons_of_neg (by simp [ha])]
    rw [strtok_some _ a (as ++ rest) hd]
    have hall : ∀ c ∈ a :: as, (fun x => !isDelim x) c = true := by
      intro c hc
      simp [htok c hc]
    have e1 : (a :: (as ++ rest)).takeWhile (fun x => !isDelim x) = a :: as := by
      rw [← List.cons_append, List.takeWhile_append_of_pos hall]
      cases rest with
      | nil => simp
      | cons c r =>
        have := hrest c r rfl
        rw [List.takeWhile_cons_of_neg (by simp [this])]
        simp
    have e2 : (a :: (as ++ rest)).dropWhile (fun x => !isDelim x) = rest := by
      rw [← List.cons_append, List.dropWhile_append_of_pos hall]
      cases rest with
      | nil => rfl
      | cons c r =>
        have := hrest c r rfl
        rw [List.dropWhile_cons_of_neg (by simp [this])]
    rw [e1, e2]

/-- `droptoken` on a line that starts with its first token, blanks and more text following:
exactly the text after the blanks is left. -/
theorem droptoken_token_first (tok ws rest : Str) (hne : tok ≠ [])
    (htok : ∀ c ∈ tok, isDelim c = false) (hwne : ws ≠ []) (hws : ∀ c ∈ ws, isDelim c = true)
    (hrne : rest ≠ []) (hrest : ∀ c r, rest = c :: r → isDelim c = false) :
    droptoken (tok ++ (ws ++ rest)) = some rest := by
  have hst : strtok (tok ++ (ws ++ rest)) = some (tok, (ws ++ rest).drop 1) := by
    apply strtok_token tok (ws ++ rest) hne htok
    intro c r h
    cases ws with
    | nil => exact absurd rfl hwne
    | cons w ws' =>
      simp only [List.cons_append, List.cons.injEq] at h
      exact h.1 ▸ hws w (by simp)
  unfold droptoken
  rw [hst]
  simp only
  have hmoved : (tok ++ (ws ++ rest)).drop tok.length = ws ++ rest := List.drop_left _ _
  rw [hmoved, trimleading_eq, List.append_assoc, dropWhile_blanks_append ws _ hws]
  · have hlen : (rest ++ List.drop ((tok ++ (ws ++ rest)).length - tok.length)
        (tok ++ (ws ++ rest))).length = rest.length + tok.length := by
      simp only [List.length_append, List.length_drop]
      omega
    rw [hlen, if_pos (by omega), Nat.add_sub_cancel, List.take_left]
  · intro c r h
    cases rest with
    | nil => exact absurd rfl hrne
    | cons c' r' =>
      simp only [List.cons_append, List.cons.injEq] at h
      exact hrest c' r' rfl ▸ h.1 ▸ rfl

theorem cstr_digits : cstr "0123456789" = ['0', '1', '2', '3', '4', '5', '6', '7', '8', '9'] := by
  decide

theorem digit_facts (c : Char) (hc : c ∈ cstr "0123456789") :
    isDelim c = false ∧ isspace c = false ∧ ¬ (c < '0' ∨ c > '9') ∧ ('0' ≤ c ∧ c ≤ '9') ∧
    c ≠ '-' ∧ c ≠ '+' := by
  rw [cstr_digits] at hc
  simp only [List.mem_cons, List.mem_singleton, List.not_mem_nil, or_false] at hc
  rcases hc with rfl | rfl | rfl | rfl | rfl | rfl | rfl | rfl | rfl | rfl <;> decide

theorem isnumber_digits (ds : Str) (h : ∀ c ∈ ds, c ∈ cstr "0123456789") : isnumber ds = 1 := by
  induction ds with
  | nil => rfl
  | cons a as ih =>
    unfold isnumber
    rw [if_neg (digit_facts a (h a (by simp))).2.2.1]
    exact ih (fun c hc => h c (by simp [hc]))

theorem atoi_digits (ds : Str) (hne : ds ≠ []) (h : ∀ c ∈ ds, c ∈ cstr "0123456789")
    (hk : digitsValue ds 0 ≤ 2 ^ 31 - 1) : atoi ds = (digitsValue ds 0 : Int) := by
  cases ds with
  | nil => exact absurd rfl hne
  | cons a as =>
    have fa := digit_facts a (h a (by simp))
    unfold atoi
    rw [List.dropWhile_cons_of_neg (by simp [fa.2.1])]
    split
    · rename_i r heq
      simp only [List.cons.injEq] at heq
      exact absurd heq.1 fa.2.2.2.2.1
    · rename_i r heq
      simp only [List.cons.injEq] at heq
      exact absurd heq.1 fa.2.2.2.2.2
    · unfold toInt32
      have : ((digitsValue (a :: as) 0 : Nat) : Int) ≤ 2 ^ 31 - 1 := by
        have := Int.ofNat_le.2 hk
        simpa using this
      rw [min_eq_left (by omega)]
      omega

theorem head_blank_of_append (ws rest : Str) (hwne : ws ≠ [])
    (hws : ∀ c ∈ ws, isDelim c = true) :
    ∀ c r, ws ++ rest = c :: r → isDelim c = true := by
  intro c r h
  cases ws with
  | nil => exact absurd rfl hwne
  | cons w ws1 =>
    simp only [List.cons_append, List.cons.injEq] at h
    exact h.1 ▸ hws w (by simp)

theorem head_token_of_append (tok rest : Str) (hne : tok ≠ [])
    (htok : ∀ c ∈ tok, isDelim c = false) :
    ∀ c r, tok ++ rest = c :: r → isDelim c = false := by
  intro c r h
  cases tok with
  | nil => exact absurd rfl hne
  | cons w ws1 =>
    simp only [List.cons_append, List.cons.injEq] at h
    exact h.1 ▸ htok w (by simp)

theorem getnumloops_digits (ds rest : Str) (hne : ds ≠ [])
    (h : ∀ c ∈ ds, c ∈ cstr "0123456789") (hk1 : 1 ≤ digitsValue ds 0)
    (hk2 : digitsValue ds 0 ≤ 2 ^ 31 - 1) (hrest : ∀ c r, rest = c :: r → isDelim c = true) :
    getnumloops (ds ++ rest) = (digitsValue ds 0 : Int) := by
  have hnd : ∀ c ∈ ds, isDelim c = false := fun c hc => (digit_facts c (h c hc)).1
  have htrim : trimleading (ds ++ rest) = ds ++ rest := by
    rw [trimleading_eq]
    exact dropWhile_blanks_append [] (ds ++ rest) (by simp)
      (head_token_of_append ds rest hne hnd)
  unfold getnumloops
  rw [htrim, strtok_token ds rest hne hnd hrest]
  simp only
  rw [isnumber_digits ds h, atoi_digits ds hne h hk2, if_pos]
  exact ⟨rfl, by omega⟩

theorem loopcheck_loop (rest : Str) (hrest : ∀ c r, rest = c :: r → isDelim c = true) :
    loopcheck (cstr "loop" ++ rest) = 1 := by
  have hl : cstr "loop" = ['l', 'o', 'o', 'p'] := by decide
  have hnd : ∀ c ∈ cstr "loop", isDelim c = false := by decide
  have htrim : trimleading (cstr "loop" ++ rest) = cstr "loop" ++ rest := by
    rw [trimleading_eq]
    exact dropWhile_blanks_append [] (cstr "loop" ++ rest) (by simp)
      (head_token_of_append _ rest (by rw [hl]; simp) hnd)
  unfold loopcheck
  rw [htrim, strtok_token _ rest (by rw [hl]; simp) hnd hrest]
  simp

/-! ### Calls of `builtinhandler` in the trace -/

theorem builtinCalls_append (a b : List Event) :
    builtinCalls (a ++ b) = builtinCalls a ++ builtinCalls b := by
  induction a with
  | nil => simp [builtinCalls]
  | cons e es ih => cases e <;> simpa [builtinCalls] using ih

theorem builtinCalls_log (s : Shell) (e : Event) :
    builtinCalls (s.log e).trace = builtinCalls s.trace ++ builtinCalls [e] := by
  unfold Shell.log
  exact builtinCalls_append _ _

theorem builtinCalls_reportError (s : Shell) :
    builtinCalls (reportError s).trace = builtinCalls s.trace := by
  unfold reportError
  rw [builtinCalls_log]
  simp [builtinCalls]

theorem makePipes_calls (os : PipeOS) :
    ∀ (n i : Nat) (s : Shell) (P : List (Nat × Nat)),
      builtinCalls (makePipes os n i s P).1.trace = builtinCalls s.trace := by
  intro n
  induction n with
  | zero => intro i s P; rfl
  | succ n ih =>
    intro i s P
    unfold makePipes
    split
    · rw [ih, builtinCalls_log]
      simp [builtinCalls]
    · simp only
      rw [builtinCalls_reportError, builtinCalls_log]
      simp [builtinCalls]

theorem forkAll_calls (os : PipeOS) (cmds : List (List Str)) (P : List (Nat × Nat)) :
    ∀ (n i : Nat) (s : Shell),
      builtinCalls (forkAll os cmds P n i s).1.trace = builtinCalls s.trace := by
  intro n
  induction n with
  | zero => intro i s; rfl
  | succ n ih =>
    intro i s
    unfold forkAll
    split
    · rw [ih, builtinCalls_log]
      simp [builtinCalls]
    · simp only
      rw [builtinCalls_reportError, builtinCalls_log]
      simp [builtinCalls]

theorem closePipes_calls (P : List (Nat × Nat)) (s : Shell) :
    builtinCalls (closePipes P s).trace = builtinCalls s.trace := by
  rw [(closePipes_eq P s).2.1, builtinCalls_append]
  have : ∀ l : List Nat, builtinCalls (l.map Event.close) = [] := by
    intro l
    induction l with
    | nil => rfl
    | cons a l ih => simpa [builtinCalls] using ih
  rw [this, List.append_nil]

theorem pipeline_calls (os : PipeOS) (cmds : List (List Str)) (s : Shell) :
    builtinCalls (pipeline os cmds s).state.trace = builtinCalls s.trace := by
  have h0 : builtinCalls (s.log (Event.pipeline cmds)).trace = builtinCalls s.trace := by
    rw [builtinCalls_log]; simp [builtinCalls]
  have hm := makePipes_calls os (cmds.length - 1) 0 (s.log (Event.pipeline cmds)) []
  unfold pipeline
  simp only
  split
  · exact h0
  · cases hmk : makePipes os (cmds.length - 1) 0 (s.log (Event.pipeline cmds)) [] with
    | mk s1 r =>
      rw [hmk] at hm
      cases r with
      | none => simp only [Outcome.state]; rw [hm, h0]
      | some pipe_fds =>
        simp only
        have hf := forkAll_calls os cmds pipe_fds cmds.length 0 s1
        cases hfk : forkAll os cmds pipe_fds cmds.length 0 s1 with
        | mk s2 ok =>
          rw [hfk] at hf
          cases ok with
          | false => simp only [Outcome.state]; rw [hf, hm, h0]
          | true =>
            simp only [ne_eq, not_true_eq_false, if_false, Outcome.state]
            rw [builtinCalls_log, closePipes_calls, hf, hm, h0]
            simp [builtinCalls]

theorem splitpiped_calls (env : Env) (line : Str) (s : Shell) :
    builtinCalls (splitpiped env line s).state.trace = builtinCalls s.trace := by
  have h0 : builtinCalls (s.log (Event.splitpiped line)).trace = builtinCalls s.trace := by
    rw [builtinCalls_log]; simp [builtinCalls]
  unfold splitpiped
  simp only
  split
  · exact h0
  · split
    · exact h0
    · rename_i cmd_arr _
      have hp := pipeline_calls (env.pipeOS (s.log (Event.splitpiped line)).trace) cmd_arr
        (s.log (Event.splitpiped line))
      split <;> rename_i heq <;> rw [heq] at hp <;> simp only [Outcome.state] at hp ⊢ <;>
        rw [hp, h0]

theorem sysChdir_calls (env : Env) (s : Shell) (path : Option Str) :
    builtinCalls (sysChdir env s path).1.trace = builtinCalls s.trace := by
  unfold sysChdir
  split <;> simp only <;> rw [builtinCalls_log] <;> simp [builtinCalls]

theorem changedir_calls (env : Env) (args : List Str) (s : Shell) :
    builtinCalls (changedir env args s).trace = builtinCalls s.trace := by
  have key : ∀ ab : Shell × Bool, builtinCalls ab.1.trace = builtinCalls s.trace →
      builtinCalls (if ab.2 = true then reportError ab.1
        else if (!(sysChdir env ab.1 (some (args.getD 1 []))).2) = true then
          reportError (sysChdir env ab.1 (some (args.getD 1 []))).1
        else (sysChdir env ab.1 (some (args.getD 1 []))).1).trace = builtinCalls s.trace := by
    intro ab h
    split
    · rw [builtinCalls_reportError, h]
    · split
      · rw [builtinCalls_reportError, sysChdir_calls, h]
      · rw [sysChdir_calls, h]
  unfold changedir
  simp only
  apply key
  split
  · exact sysChdir_calls env s env.home
  · rfl

theorem printworkingdir_calls (env : Env) (s : Shell) :
    builtinCalls (printworkingdir env s).state.trace = builtinCalls s.trace := by
  unfold printworkingdir
  simp only
  split
  · simp only [Outcome.state]
    rw [builtinCalls_log, builtinCalls_log]
    simp [builtinCalls]
  · simp only [Outcome.state]
    rw [builtinCalls_reportError, builtinCalls_log]
    simp [builtinCalls]

theorem builtinhandler_calls (env : Env) (line : Str) (s : Shell) :
    builtinCalls (builtinhandler env line s).state.trace = builtinCalls s.trace ++ [line] := by
  have h0 : builtinCalls (s.log (Event.builtinhandler line)).trace
      = builtinCalls s.trace ++ [line] := by
    rw [builtinCalls_log]; simp [builtinCalls]
  unfold builtinhandler
  simp only
  split
  · exact h0
  · split
    · simp only [Outcome.state]; rw [builtinCalls_reportError, h0]
    · split
      · exact h0
      · split
        · exact h0
        · split
          · have hp := printworkingdir_calls env (s.log (Event.builtinhandler line))
            split <;> rename_i heq <;> rw [heq] at hp <;> simp only [Outcome.state] at hp ⊢ <;>
              rw [hp, h0]
          · split
            · simp only [Outcome.state]; rw [changedir_calls, h0]
            · exact h0

theorem dispatch_calls (env : Env) (line : Str) (s : Shell) :
    builtinCalls (dispatch env line s).state.trace = builtinCalls s.trace ++ [line] := by
  have hb := builtinhandler_calls env line s
  unfold dispatch
  split <;> rename_i heq <;> rw [heq] at hb <;> simp only [Outcome.state] at hb
  · split
    · rw [splitpiped_calls, hb]
    · exact hb
  · exact hb
  · exact hb

theorem runLoop_calls (env : Env) (line : Str) :
    ∀ (n : Nat) (s : Shell), ∃ m, m ≤ n ∧
      builtinCalls (runLoop env line n s).state.trace
        = builtinCalls s.trace ++ List.replicate m line ∧
      ((∃ s1, runLoop env line n s = Outcome.ret () s1) → m = n) := by
  intro n
  induction n with
  | zero => intro s; exact ⟨0, le_refl _, by simp [runLoop, Outcome.state], fun _ => rfl⟩
  | succ n ih =>
    intro s
    have hd := dispatch_calls env line s
    unfold runLoop
    split <;> rename_i heq <;> rw [heq] at hd <;> simp only [Outcome.state] at hd
    · rename_i s1
      obtain ⟨m, hm, hcalls, hret⟩ := ih s1
      refine ⟨m + 1, by omega, ?_, fun h => by rw [hret h]⟩
      rw [hcalls, hd, List.append_assoc, List.replicate_succ]
      rfl
    · exact ⟨1, by omega, by simpa using hd, fun ⟨s1, h⟩ => by cases h⟩
    · exact ⟨1, by omega, by simpa using hd, fun ⟨s1, h⟩ => by cases h⟩

/-- C1, as the code has it: a statement `loop`, blanks, an all-digit count of value `k` with
`1 <= k <= 2^31 - 1`, blanks, and a command text `cmd` starting with a non-blank is recognised
as a loop; the two `droptoken` calls leave exactly `cmd`; `getnumloops` answers `k`; the
statement then is the `for (j ...)` loop with `num_runs = k` on `cmd` and nothing else (no
loop error).  That loop calls `builtinhandler` on the unchanged `cmd` once per run, one run
after the other: `k` times when it runs through, fewer only when a run ends the interpreter
(or runs into undefined behaviour), after which no further run is made. -/
theorem loop_statement_runs (env : Env) (s : Shell) (ws1 digits ws2 cmd : Str)
    (hw1 : ws1 ≠ []) (hw1d : ∀ c ∈ ws1, isDelim c = true)
    (hdne : digits ≠ []) (hdig : ∀ c ∈ digits, c ∈ cstr "0123456789")
    (hk1 : 1 ≤ digitsValue digits 0) (hk2 : digitsValue digits 0 ≤ 2 ^ 31 - 1)
    (hw2 : ws2 ≠ []) (hw2d : ∀ c ∈ ws2, isDelim c = true)
    (hcmd : cmd.head?.map isDelim = some false) :
    loopcheck (cstr "loop" ++ (ws1 ++ (digits ++ (ws2 ++ cmd)))) = 1 ∧
    (droptoken (cstr "loop" ++ (ws1 ++ (digits ++ (ws2 ++ cmd))))).bind droptoken = some cmd ∧
    getnumloops (digits ++ (ws2 ++ cmd)) = (digitsValue digits 0 : Int) ∧
    statement env (cstr "loop" ++ (ws1 ++ (digits ++ (ws2 ++ cmd)))) s
      = afterRuns (runLoop env cmd (digitsValue digits 0) s) ∧
    ∃ m, m ≤ digitsValue digits 0 ∧
      builtinCalls (runLoop env cmd (digitsValue digits 0) s).state.trace
        = builtinCalls s.trace ++ List.replicate m cmd ∧
      ((∃ s1, runLoop env cmd (digitsValue digits 0) s = Outcome.ret () s1) →
        m = digitsValue digits 0) := by
  have hcne : cmd ≠ [] := by
    intro e; rw [e] at hcmd; cases hcmd
  have hchead : ∀ c r, cmd = c :: r → isDelim c = false := by
    intro c r e
    rw [e] at hcmd
    simpa using hcmd
  have hnd : ∀ c ∈ digits, isDelim c = false := fun c hc => (digit_facts c (hdig c hc)).1
  have hl : cstr "loop" = ['l', 'o', 'o', 'p'] := by decide
  have hlnd : ∀ c ∈ cstr "loop", isDelim c = false := by decide
  have hcheck := loopcheck_loop (ws1 ++ (digits ++ (ws2 ++ cmd)))
    (head_blank_of_append ws1 _ hw1 hw1d)
  have hdrop1 : droptoken (cstr "loop" ++ (ws1 ++ (digits ++ (ws2 ++ cmd))))
      = some (digits ++ (ws2 ++ cmd)) :=
    droptoken_token_first (cstr "loop") ws1 (digits ++ (ws2 ++ cmd)) (by rw [hl]; simp) hlnd
      hw1 hw1d (by simp [hdne]) (head_token_of_append digits _ hdne hnd)
  have hdrop2 : droptoken (digits ++ (ws2 ++ cmd)) = some cmd :=
    droptoken_token_first digits ws2 cmd hdne hnd hw2 hw2d hcne hchead
  have hnum := getnumloops_digits digits (ws2 ++ cmd) hdne hdig hk1 hk2
    (head_blank_of_append ws2 _ hw2 hw2d)
  refine ⟨hcheck, by rw [hdrop1]; exact hdrop2, hnum, ?_, runLoop_calls env cmd _ s⟩
  unfold statement
  rw [hcheck, if_pos rfl, hdrop1]
  simp only
  rw [hnum, if_pos (by omega), hdrop2]
  simp

/-- The statement `loop 2 pwd` is the loop with two runs on `pwd`. -/
theorem loop_statement_runs_witness :
    statement okEnv (cstr "loop" ++ (cstr " " ++ (cstr "2" ++ (cstr " " ++ cstr "pwd\n")))) shell0
      = afterRuns (runLoop okEnv (cstr "pwd\n") (digitsValue (cstr "2") 0) shell0) :=
  (loop_statement_runs okEnv shell0 (cstr " ") (cstr "2") (cstr " ") (cstr "pwd\n")
    (by decide) (by decide) (by decide) (by decide) (by decide) (by decide) (by decide)
    (by decide) (by decide)).2.2.2.1

/-- C1: the statement `loop 2 exit` has count 2 and command `exit`, yet `builtinhandler` is
called once, not twice: the first run ends the interpreter with status 0. -/
theorem loop_exit_runs_once :
    statement okEnv (cstr "loop 2 exit\n") shell0
      = Outcome.exited 0 (shell0.log (Event.builtinhandler (cstr "exit\n"))) ∧
    builtinCalls (statement okEnv (cstr "loop 2 exit\n") shell0).state.trace
      = [cstr "exit\n"] := by
  decide

/-! ### Accesses outside an array -/

/-- C19: for the line `loop` followed by four spaces, and for the line `3` plus newline that
`loop 3` leaves behind, the string is empty after the `memmove` and `trimleading`, so the
truncation index `strlen(line) - strlen(token)` is `0 - 4` and `0 - 1`: the store is in front
of the line. -/
theorem droptoken_index_negative :
    strtok (cstr "loop    ") = some (cstr "loop", cstr "   ") ∧
    trimleading ((cstr "loop    ").drop 4 ++ (cstr "loop    ").drop (8 - 4)) = [] ∧
    droptoken (cstr "loop    ") = none ∧
    droptoken (cstr "loop 3\n") = some (cstr "3\n") ∧
    strtok (cstr "3\n") = some (cstr "3", []) ∧
    trimleading ((cstr "3\n").drop 1 ++ (cstr "3\n").drop (2 - 1)) = [] ∧
    droptoken (cstr "3\n") = none := by
  decide

/-- C18: `lexer` allocates exactly as many entries as there are tokens, so the index
`num_args[i]` of the sentinel store is the number of entries of the array, one past its last
entry, whatever the stage; for `ls -l` the array has entries 0 and 1 and the store goes to
index 2, for a stage without token the array has no entry and the store goes to index 0. -/
theorem sentinel_index_past_array :
    lexer (cstr "ls -l")
      = some { ret := 0, args := [cstr "ls", cstr "-l"], num_args := 2, alloc := 2 } ∧
    lexer (cstr " ") = some { ret := 0, args := [], num_args := 0, alloc := 0 } ∧
    ∀ line : Str, ∃ lx : Lexed, lexer line = some lx ∧ lx.alloc = lx.num_args ∧
      ¬ (lx.num_args < lx.alloc) := by
  refine ⟨by decide, by decide, fun line => ⟨_, lexer_eq line, rfl, ?_⟩⟩
  simp

/-- C13: the piece `" "` (the middle statement of `ls ; ; pwd`) is given to `builtinhandler`,
which reads `args[0]` of an array without entry; so is the empty text that `loop 3` leaves;
and with `loop 3` plus newline the second `droptoken` already stores in front of the line. -/
theorem blank_statement_is_dispatched :
    lexer (cstr " ") = some { ret := 0, args := [], num_args := 0, alloc := 0 } ∧
    statement okEnv (cstr " ") shell0
      = Outcome.ub (shell0.log (Event.builtinhandler (cstr " "))) ∧
    builtinCalls (splitchained okEnv (cstr "ls ; ; pwd\n") shell0).state.trace
      = [cstr "ls ", cstr " "] ∧
    splitchained okEnv (cstr "ls ; ; pwd\n") shell0
      = Outcome.ub (splitchained okEnv (cstr "ls ; ; pwd\n") shell0).state ∧
    (droptoken (cstr "loop 3")).bind droptoken = some [] ∧
    statement okEnv (cstr "loop 3") shell0
      = Outcome.ub (shell0.log (Event.builtinhandler [])) ∧
    statement okEnv (cstr "loop 3\n") shell0 = Outcome.ub shell0 := by
  decide

/-- C14: for the statement `|` both pieces are empty and dropped, `pipeline` is called with no
command at all and its array bound wraps around; for `ls | ` the piece `" "` is kept and
`pipeline` is called with two commands, the second without any token (`execv(NULL, ...)`). -/
theorem pipeline_gets_empty_commands :
    builtinhandler okEnv (cstr "|") shell0
      = Outcome.ret 0 (shell0.log (Event.builtinhandler (cstr "|"))) ∧
    pipelineCalls (splitpiped okEnv (cstr "|") shell0).state.trace = [[]] ∧
    splitpiped okEnv (cstr "|") shell0
      = Outcome.ub ((shell0.log (Event.splitpiped (cstr "|"))).log (Event.pipeline [])) ∧
    builtinhandler okEnv (cstr "ls | ") shell0
      = Outcome.ret 0 (shell0.log (Event.builtinhandler (cstr "ls | "))) ∧
    pipelineCalls (splitpiped okEnv (cstr "ls | ") shell0).state.trace = [[[cstr "ls"], []]] ∧
    (spawned (splitpiped okEnv (cstr "ls | ") shell0).state.trace).map (fun c => c.exec)
      = [some (some (cstr "ls"), [cstr "ls"]), some (none, [])] := by
  decide

/-- C16: on `cd ~` with `HOME=/home/u`, `chdir` is called twice, first with `/home/u` and, that
call having succeeded, with the literal `~`.  Where no directory `~` exists the error is
written although the working directory is now `/home/u`; where one exists the working
directory ends up being `~`, not `HOME`. -/
theorem cd_tilde_also_tries_literal :
    chdirCalls (builtinhandler homeOnlyEnv (cstr "cd ~") shell0).state.trace
      = [some (cstr "/home/u"), some (cstr "~")] ∧
    (builtinhandler homeOnlyEnv (cstr "cd ~") shell0).state.cwd = cstr "/home/u" ∧
    errorCount (builtinhandler homeOnlyEnv (cstr "cd ~") shell0).state.trace = 1 ∧
    chdirCalls (builtinhandler okEnv (cstr "cd ~") shell0).state.trace
      = [some (cstr "/home/u"), some (cstr "~")] ∧
    (builtinhandler okEnv (cstr "cd ~") shell0).state.cwd = cstr "~" := by
  decide

/-! ### Lines without `;` -/

theorem strsep_no_delim (line delim : Str) (h : ∀ c ∈ line, delim.elem c = false) :
    strsep line delim = (line, none) := by
  have hd : line.dropWhile (fun c => !delim.elem c) = [] := by
    rw [List.dropWhile_eq_nil_iff]
    intro c hc
    rw [h c hc]
    rfl
  unfold strsep
  rw [hd]

/-- On a line without `;`, `splitline` on `;` has one piece to look at, the line itself. -/
theorem splitline_no_semicolon (line : Str) (h : ';' ∉ line) :
    splitline MAX line (cstr ";")
      = if line = [] ∨ line = cstr "\n" ∨ line = cstr "\t" then some [] else some [line] := by
  have hsemi : cstr ";" = [';'] := by decide
  have hsep : strsep line (cstr ";") = (line, none) := by
    apply strsep_no_delim
    intro c hc
    rw [hsemi]
    have hne : (c == ';') = false := by
      have : c ≠ ';' := fun e => h (e ▸ hc)
      simpa using this
    simp [List.elem, hne]
  have he : cstr "\x00" = [] := by decide
  have he2 : cstr "" = [] := by decide
  unfold splitline
  unfold splitlineLoop
  rw [if_pos (by decide)]
  simp only [hsep, he, he2]
  by_cases hc : line = [] ∨ line = cstr "\n" ∨ line = cstr "\t"
  · rw [if_pos hc, if_neg (by tauto)]
    unfold splitlineLoop
    rw [if_pos (by decide)]
  · rw [if_neg hc, if_pos (by tauto)]
    unfold splitlineLoop
    rw [if_pos (by simp [MAX])]
    rfl

/-- C17, as the code has it: on a line without `;` that has at least one character other than
space, tab and newline, `splitline` on `;` returns exactly one statement, the line itself,
with its leading and trailing blanks and its trailing newline. -/
theorem splitline_single_statement (line : Str) (h : ';' ∉ line)
    (hnb : ∃ c ∈ line, isDelim c = false) :
    splitline MAX line (cstr ";") = some [line] := by
  rw [splitline_no_semicolon line h, if_neg]
  obtain ⟨c, hc, hnd⟩ := hnb
  have hn : cstr "\n" = ['\n'] := by decide
  have ht : cstr "\t" = ['\t'] := by decide
  rintro (e | e | e)
  · rw [e] at hc
    simp at hc
  · rw [e, hn, List.mem_singleton] at hc
    rw [hc] at hnd
    revert hnd
    decide
  · rw [e, ht, List.mem_singleton] at hc
    rw [hc] at hnd
    revert hnd
    decide

/-- The line ` ls ` plus newline has no `;` and comes back as it is. -/
theorem splitline_single_statement_witness :
    splitline MAX (cstr " ls \n") (cstr ";") = some [cstr " ls \n"] :=
  splitline_single_statement (cstr " ls \n") (by decide) ⟨'l', by decide, by decide⟩

/-- C17: the line `ls` plus newline comes back with its newline, the line ` ls ` plus newline
with its blanks: the statement is not the trimmed line. -/
theorem splitline_keeps_whitespace :
    splitline MAX (cstr "ls\n") (cstr ";") = some [cstr "ls\n"] ∧
    splitline MAX (cstr "ls\n") (cstr ";") ≠ some [cstr "ls"] ∧
    splitline MAX (cstr " ls \n") (cstr ";") = some [cstr " ls \n"] ∧
    splitline MAX (cstr " ls \n") (cstr ";") ≠ some [cstr "ls"] := by
  decide

/-! ### Builtin dispatch -/

theorem lexer_maximalRuns (line : Str) :
    lexer line = some { ret := 0, args := maximalRuns line,
                        num_args := (maximalRuns line).length,
                        alloc := (maximalRuns line).length } := by
  rw [lexer_eq, strtokAll_eq_maximalRuns _ line (by omega)]

/-- `builtinhandler` on a line with at least one token, the first one not being `exit`: what
the two remaining comparisons decide. -/
theorem builtinhandler_tokens (env : Env) (line : Str) (s : Shell) (tok : Str)
    (rest : List Str) (htoks : maximalRuns line = tok :: rest) (hexit : tok ≠ cstr "exit") :
    builtinhandler env line s
      = (if tok = cstr "pwd" then
          match printworkingdir env (s.log (Event.builtinhandler line)) with
          | Outcome.ret _ s1 => Outcome.ret 1 s1
          | Outcome.exited c s1 => Outcome.exited c s1
          | Outcome.ub s1 => Outcome.ub s1
        else if rest.length = 1 ∧ tok = cstr "cd" then
          Outcome.ret 1 (changedir env (tok :: rest) (s.log (Event.builtinhandler line)))
        else Outcome.ret 0 (s.log (Event.builtinhandler line)) : Outcome Int) := by
  unfold builtinhandler
  rw [lexer_maximalRuns, htoks]
  simp [hexit]

/-- C15, as the code has it: for a statement with at least one token, the first one (`tok`)
not being `exit`: when `tok` is `pwd`, `builtinhandler` returns 1 if `getcwd` succeeds, and
if `getcwd` fails (as it does for a path that does not fit the 256 bytes) it writes the error
and ends the interpreter with status 0 instead of returning; when `tok` is `cd` with exactly
one more token it returns 1; in every other case it returns 0 and leaves descriptors and
working directory as they were.  So whenever it returns, the value is 1 if and only if `tok`
is `pwd`, or `tok` is `cd` and there are exactly two tokens. -/
theorem builtinhandler_handled_iff (env : Env) (line : Str) (s : Shell) (tok : Str)
    (rest : List Str) (htoks : maximalRuns line = tok :: rest) (hexit : tok ≠ cstr "exit") :
    (tok = cstr "pwd" → env.getcwdOk (s.log (Event.builtinhandler line)).trace = true →
      s.cwd.length < 256 →
      builtinhandler env line s
        = Outcome.ret 1 (((s.log (Event.builtinhandler line)).log (Event.getcwd true)).log
            (Event.printf (s.cwd ++ cstr "\n")))) ∧
    (tok = cstr "cd" → (tok :: rest).length = 2 →
      builtinhandler env line s
        = Outcome.ret 1 (changedir env (tok :: rest) (s.log (Event.builtinhandler line)))) ∧
    (tok ≠ cstr "pwd" → ¬ (tok = cstr "cd" ∧ (tok :: rest).length = 2) →
      builtinhandler env line s = Outcome.ret 0 (s.log (Event.builtinhandler line))) ∧
    (∀ r s1, builtinhandler env line s = Outcome.ret r s1 →
      (r = 1 ↔ (tok = cstr "pwd" ∨ (tok = cstr "cd" ∧ (tok :: rest).length = 2))) ∧
      (r = 1 ∨ r = 0) ∧
      (r = 0 → s1.fds = s.fds ∧ s1.cwd = s.cwd ∧
        s1.trace = s.trace ++ [Event.builtinhandler line])) ∧
    (tok = cstr "pwd" →
      ¬ (env.getcwdOk (s.log (Event.builtinhandler line)).trace = true ∧ s.cwd.length < 256) →
      builtinhandler env line s
        = Outcome.exited 0
            (reportError ((s.log (Event.builtinhandler line)).log (Event.getcwd false)))) := by
  have hb := builtinhandler_tokens env line s tok rest htoks hexit
  have hcd : cstr "cd" ≠ cstr "pwd" := by decide
  have hlen : (tok :: rest).length = 2 ↔ rest.length = 1 := by simp
  refine ⟨?_, ?_, ?_, ?_, ?_⟩
  · intro hpwd hok hcwd
    rw [hb, if_pos hpwd]
    unfold printworkingdir
    simp only
    rw [if_pos ⟨hok, hcwd⟩]
    rfl
  · intro hcdt hl
    rw [hb, if_neg (by rw [hcdt]; exact hcd), if_pos ⟨hlen.1 hl, hcdt⟩]
  · intro hnp hncd
    rw [hb, if_neg hnp, if_neg (fun h => hncd ⟨h.2, hlen.2 h.1⟩)]
  · intro r s1 hret
    rw [hb] at hret
    by_cases hpwd : tok = cstr "pwd"
    · rw [if_pos hpwd] at hret
      split at hret
      · cases hret
        exact ⟨by simp [hpwd], Or.inl rfl, fun h => by cases h⟩
      · cases hret
      · cases hret
    · rw [if_neg hpwd] at hret
      by_cases hcdc : rest.length = 1 ∧ tok = cstr "cd"
      · rw [if_pos hcdc] at hret
        cases hret
        exact ⟨by simp [hcdc.2, hcdc.1], Or.inl rfl, fun h => by cases h⟩
      · rw [if_neg hcdc] at hret
        cases hret
        refine ⟨?_, Or.inr rfl, fun _ => ⟨rfl, rfl, rfl⟩⟩
        constructor
        · intro h; cases h
        · rintro (h | ⟨h1, h2⟩)
          · exact absurd h hpwd
          · exact absurd ⟨hlen.1 h2, h1⟩ hcdc
  · intro hpwd hfail
    have hfail2 : ¬ (env.getcwdOk (s.log (Event.builtinhandler line)).trace = true ∧
        (s.log (Event.builtinhandler line)).cwd.length < 256) := hfail
    rw [hb, if_pos hpwd]
    unfold printworkingdir
    simp only
    rw [if_neg hfail2]

set_option maxRecDepth 16384 in
/-- C15: in a working directory whose path has 256 bytes, `builtinhandler` on `pwd` does not
return 1: `getcwd` fails for want of room, the error is written and the interpreter ends with
status 0.  With a path of one byte the same call returns 1. -/
theorem pwd_ends_interpreter_on_long_cwd :
    shellLongCwd.cwd.length = 256 ∧
    builtinhandler okEnv (cstr "pwd") shellLongCwd
      = Outcome.exited 0
          (reportError ((shellLongCwd.log (Event.builtinhandler (cstr "pwd"))).log
            (Event.getcwd false))) ∧
    builtinhandler okEnv (cstr "pwd") shell0
      = Outcome.ret 1
          (((shell0.log (Event.builtinhandler (cstr "pwd"))).log (Event.getcwd true)).log
            (Event.printf (cstr "/\n"))) := by
  decide

/-- The statement `cd /tmp` is handled, the statement `/bin/ls -l` is not. -/
theorem builtinhandler_handled_iff_witness :
    builtinhandler okEnv (cstr "cd /tmp") shell0
      = Outcome.ret 1 (changedir okEnv [cstr "cd", cstr "/tmp"]
          (shell0.log (Event.builtinhandler (cstr "cd /tmp")))) ∧
    builtinhandler okEnv (cstr "/bin/ls -l") shell0
      = Outcome.ret 0 (shell0.log (Event.builtinhandler (cstr "/bin/ls -l"))) :=
  ⟨(builtinhandler_handled_iff okEnv (cstr "cd /tmp") shell0 (cstr "cd") [cstr "/tmp"]
      (by decide) (by decide)).2.1 (by decide) (by decide),
   (builtinhandler_handled_iff okEnv (cstr "/bin/ls -l") shell0 (cstr "/bin/ls") [cstr "-l"]
      (by decide) (by decide)).2.2.1 (by decide) (by decide)⟩

/-! ### The `exit` builtin -/

theorem strtok_trimleading (line : Str) : strtok (trimleading line) = strtok line := by
  have hidem : (line.dropWhile isDelim).dropWhile isDelim = line.dropWhile isDelim := by
    cases hd : line.dropWhile isDelim with
    | nil => rfl
    | cons c cs =>
      have hc := head_dropWhile_false line c cs hd
      rw [List.dropWhile_cons_of_neg (by simp [hc])]
  rw [trimleading_eq]
  unfold strtok
  rw [hidem]

theorem head_maximalRuns (line : Str) :
    (maximalRuns line).head? = (strtok line).map Prod.fst := by
  rw [← strtokAll_eq_maximalRuns (line.length + 1) line (by omega)]
  unfold strtokAll
  cases strtok line with
  | none => rfl
  | some tr => rfl

theorem loopcheck_first_token (line tok : Str) (h : (maximalRuns line).head? = some tok) :
    loopcheck line = if tok = cstr "loop" then 1 else 0 := by
  rw [head_maximalRuns] at h
  unfold loopcheck
  rw [strtok_trimleading]
  cases hst : strtok line with
  | none => rw [hst] at h; cases h
  | some tr =>
    rw [hst] at h
    simp only [Option.map_some', Option.some.injEq] at h
    simp only [h]

theorem builtinhandler_exit (env : Env) (line : Str) (s : Shell)
    (h : (maximalRuns line).head? = some (cstr "exit")) :
    builtinhandler env line s = Outcome.exited 0 (s.log (Event.builtinhandler line)) := by
  cases htoks : maximalRuns line with
  | nil => rw [htoks] at h; cases h
  | cons tok rest =>
    rw [htoks] at h
    simp only [List.head?_cons, Option.some.injEq] at h
    unfold builtinhandler
    rw [lexer_maximalRuns, htoks]
    simp [h]

theorem runLoop_exit (env : Env) (line : Str) (s : Shell)
    (h : (maximalRuns line).head? = some (cstr "exit")) (n : Nat) :
    runLoop env line (n + 1) s = Outcome.exited 0 (s.log (Event.builtinhandler line)) := by
  unfold runLoop dispatch
  rw [builtinhandler_exit env line s h]

theorem chainLoop_runThrough (env : Env) (rest : List Str) :
    ∀ (pre : List Str) (s0 s : Shell), runThrough env pre s0 = some s →
      chainLoop env (pre ++ rest) s0 = chainLoop env rest s := by
  intro pre
  induction pre with
  | nil =>
    intro s0 s h
    simp only [runThrough, Option.some.injEq] at h
    rw [h]
    rfl
  | cons stmt pre ih =>
    intro s0 s h
    unfold runThrough at h
    rw [List.cons_append]
    conv_lhs => unfold chainLoop
    split at h
    · rename_i s1 heq
      rw [heq]
      simp only [if_true]
      exact ih s1 s h
    · cases h

/-- A well-formed loop statement is the `for (j ...)` loop with the count as `num_runs` on the
command text. -/
theorem statement_loop (env : Env) (s : Shell) (ws1 digits ws2 cmd : Str)
    (hw1 : ws1 ≠ []) (hw1d : ∀ c ∈ ws1, isDelim c = true)
    (hdne : digits ≠ []) (hdig : ∀ c ∈ digits, c ∈ cstr "0123456789")
    (hk1 : 1 ≤ digitsValue digits 0) (hk2 : digitsValue digits 0 ≤ 2 ^ 31 - 1)
    (hw2 : ws2 ≠ []) (hw2d : ∀ c ∈ ws2, isDelim c = true)
    (hcmd : cmd.head?.map isDelim = some false) :
    statement env (cstr "loop" ++ (ws1 ++ (digits ++ (ws2 ++ cmd)))) s
      = afterRuns (runLoop env cmd (digitsValue digits 0) s) := by
  have hcne : cmd ≠ [] := by
    intro e; rw [e] at hcmd; cases hcmd
  have hchead : ∀ c r, cmd = c :: r → isDelim c = false := by
    intro c r e
    rw [e] at hcmd
    simpa using hcmd
  have hnd : ∀ c ∈ digits, isDelim c = false := fun c hc => (digit_facts c (hdig c hc)).1
  have hl : cstr "loop" = ['l', 'o', 'o', 'p'] := by decide
  have hlnd : ∀ c ∈ cstr "loop", isDelim c = false := by decide
  have hcheck := loopcheck_loop (ws1 ++ (digits ++ (ws2 ++ cmd)))
    (head_blank_of_append ws1 _ hw1 hw1d)
  have hdrop1 : droptoken (cstr "loop" ++ (ws1 ++ (digits ++ (ws2 ++ cmd))))
      = some (digits ++ (ws2 ++ cmd)) :=
    droptoken_token_first (cstr "loop") ws1 (digits ++ (ws2 ++ cmd)) (by rw [hl]; simp) hlnd
      hw1 hw1d (by simp [hdne]) (head_token_of_append digits _ hdne hnd)
  have hdrop2 : droptoken (digits ++ (ws2 ++ cmd)) = some cmd :=
    droptoken_token_first digits ws2 cmd hdne hnd hw2 hw2d hcne hchead
  have hnum := getnumloops_digits digits (ws2 ++ cmd) hdne hdig hk1 hk2
    (head_blank_of_append ws2 _ hw2 hw2d)
  unfold statement
  rw [hcheck, if_pos rfl, hdrop1]
  simp only
  rw [hnum, if_pos (by omega), hdrop2]
  simp

/-- C12: when the statements before it have all been run through (leading to state `s`) and
`builtinhandler` is then given a line whose first token is `exit`, the interpreter terminates
there with status 0 and nothing more is recorded than that one call: this holds for the line
as a plain statement and for the line as the command of a loop statement with any count (no
second repetition), whatever statements follow on the input line. -/
theorem exit_ends_interpreter (env : Env) (s0 s : Shell) (pre rest : List Str) (line : Str)
    (hpre : runThrough env pre s0 = some s)
    (hexit : (maximalRuns line).head? = some (cstr "exit")) :
    builtinhandler env line s = Outcome.exited 0 (s.log (Event.builtinhandler line)) ∧
    (∀ n, runLoop env line (n + 1) s = Outcome.exited 0 (s.log (Event.builtinhandler line))) ∧
    chainLoop env (pre ++ line :: rest) s0
      = Outcome.exited 0 (s.log (Event.builtinhandler line)) ∧
    (∀ ws1 digits ws2 : Str, ws1 ≠ [] → (∀ c ∈ ws1, isDelim c = true) → digits ≠ [] →
      (∀ c ∈ digits, c ∈ cstr "0123456789") → 1 ≤ digitsValue digits 0 →
      digitsValue digits 0 ≤ 2 ^ 31 - 1 → ws2 ≠ [] → (∀ c ∈ ws2, isDelim c = true) →
      line.head?.map isDelim = some false →
      chainLoop env (pre ++ (cstr "loop" ++ (ws1 ++ (digits ++ (ws2 ++ line)))) :: rest) s0
        = Outcome.exited 0 (s.log (Event.builtinhandler line))) := by
  have hrun := runLoop_exit env line s hexit
  refine ⟨builtinhandler_exit env line s hexit, hrun, ?_, ?_⟩
  · rw [chainLoop_runThrough env _ pre s0 s hpre]
    have hne : cstr "exit" ≠ cstr "loop" := by decide
    have hlc : loopcheck line = 0 := by
      rw [loopcheck_first_token line _ hexit, if_neg hne]
    unfold chainLoop statement
    rw [hlc, if_neg (by decide), hrun 0]
    rfl
  · intro ws1 digits ws2 hw1 hw1d hdne hdig hk1 hk2 hw2 hw2d hcmd
    rw [chainLoop_runThrough env _ pre s0 s hpre]
    unfold chainLoop
    rw [statement_loop env s ws1 digits ws2 line hw1 hw1d hdne hdig hk1 hk2 hw2 hw2d hcmd]
    obtain ⟨n, hn⟩ : ∃ n, digitsValue digits 0 = n + 1 := ⟨digitsValue digits 0 - 1, by omega⟩
    rw [hn, hrun n]
    rfl

/-- The line `pwd; exit; pwd`: the working directory is printed once, then the interpreter
terminates; the third statement is not run. -/
theorem exit_ends_interpreter_witness :
    chainLoop okEnv ([cstr "pwd"] ++ cstr " exit" :: [cstr " pwd\n"]) shell0
      = Outcome.exited 0
          ((((shell0.log (Event.builtinhandler (cstr "pwd"))).log (Event.getcwd true)).log
            (Event.printf (cstr "/\n"))).log (Event.builtinhandler (cstr " exit"))) ∧
    splitline MAX (cstr "pwd; exit; pwd\n") (cstr ";")
      = some ([cstr "pwd"] ++ cstr " exit" :: [cstr " pwd\n"]) ∧
    printed (splitchained okEnv (cstr "pwd; exit; pwd\n") shell0).state.trace = [cstr "/\n"] :=
  ⟨(exit_ends_interpreter okEnv shell0
      (((shell0.log (Event.builtinhandler (cstr "pwd"))).log (Event.getcwd true)).log
        (Event.printf (cstr "/\n")))
      [cstr "pwd"] [cstr " pwd\n"] (cstr " exit") (by decide) (by decide)).2.2.1,
   by decide, by decide⟩

/-! ### Malformed loop directives -/

theorem nondigit_cmp (c : Char) (h : c ∉ cstr "0123456789") : c < '0' ∨ c > '9' := by
  by_contra hcon
  push_neg at hcon
  obtain ⟨h1, h2⟩ := hcon
  have a1 : (48 : Nat) ≤ c.toNat := h1
  have a2 : c.toNat ≤ 57 := h2
  have e : c = Char.ofNat c.toNat := (Char.ofNat_toNat c).symm
  rw [cstr_digits] at h
  generalize c.toNat = n at e a1 a2
  subst e
  interval_cases n <;> simp at h

theorem isnumber_nondigit (tok : Str) (h : ∃ c ∈ tok, c ∉ cstr "0123456789") :
    isnumber tok = 0 := by
  induction tok with
  | nil => obtain ⟨c, hc, -⟩ := h; simp at hc
  | cons a as ih =>
    unfold isnumber
    by_cases ha : a < '0' ∨ a > '9'
    · rw [if_pos ha]
    · rw [if_neg ha]
      apply ih
      obtain ⟨c, hc, hnd⟩ := h
      rcases List.mem_cons.1 hc with e | hmem
      · exact absurd (nondigit_cmp a (e ▸ hnd)) ha
      · exact ⟨c, hmem, hnd⟩

/-- `getnumloops` on a line whose first token has a non-digit character or is all digits with
value 0. -/
theorem getnumloops_invalid (tok tail : Str) (hne : tok ≠ [])
    (hnd : ∀ c ∈ tok, isDelim c = false) (htail : ∀ c r, tail = c :: r → isDelim c = true)
    (hbad : (∃ c ∈ tok, c ∉ cstr "0123456789") ∨
            ((∀ c ∈ tok, c ∈ cstr "0123456789") ∧ digitsValue tok 0 = 0)) :
    getnumloops (tok ++ tail) = -1 := by
  have htrim : trimleading (tok ++ tail) = tok ++ tail := by
    rw [trimleading_eq]
    exact dropWhile_blanks_append [] (tok ++ tail) (by simp)
      (head_token_of_append tok tail hne hnd)
  unfold getnumloops
  rw [htrim, strtok_token tok tail hne hnd htail]
  simp only
  rcases hbad with hx | ⟨hdig, hzero⟩
  · rw [isnumber_nondigit tok hx, if_neg (by simp)]
  · rw [atoi_digits tok hne hdig (by omega), hzero, if_neg (by simp)]

/-- A loop statement whose count token has a non-digit character or the value 0: the count is
refused, the error is written once and `splitchained` returns; nothing is dispatched. -/
theorem malformed_loop_statement (env : Env) (s : Shell) (ws tok tail : Str)
    (hw : ws ≠ []) (hwd : ∀ c ∈ ws, isDelim c = true) (hne : tok ≠ [])
    (hnd : ∀ c ∈ tok, isDelim c = false) (htail : ∀ c r, tail = c :: r → isDelim c = true)
    (hbad : (∃ c ∈ tok, c ∉ cstr "0123456789") ∨
            ((∀ c ∈ tok, c ∈ cstr "0123456789") ∧ digitsValue tok 0 = 0)) :
    droptoken (cstr "loop" ++ (ws ++ (tok ++ tail))) = some (tok ++ tail) ∧
    getnumloops (tok ++ tail) = -1 ∧
    statement env (cstr "loop" ++ (ws ++ (tok ++ tail))) s
      = Outcome.ret false (reportError s) := by
  have hl : cstr "loop" = ['l', 'o', 'o', 'p'] := by decide
  have hlnd : ∀ c ∈ cstr "loop", isDelim c = false := by decide
  have hcheck := loopcheck_loop (ws ++ (tok ++ tail)) (head_blank_of_append ws _ hw hwd)
  have hdrop : droptoken (cstr "loop" ++ (ws ++ (tok ++ tail))) = some (tok ++ tail) :=
    droptoken_token_first (cstr "loop") ws (tok ++ tail) (by rw [hl]; simp) hlnd hw hwd
      (by simp [hne]) (head_token_of_append tok tail hne hnd)
  have hnum := getnumloops_invalid tok tail hne hnd htail hbad
  refine ⟨hdrop, hnum, ?_⟩
  unfold statement
  rw [hcheck, if_pos rfl, hdrop]
  simp only
  rw [hnum, if_neg (by decide)]

/-- A statement that is `loop` followed by at most three blanks and nothing else: the first
`droptoken` leaves the empty string, the count is missing, the error is written once and
`splitchained` returns. -/
theorem bare_loop_statement (env : Env) (s : Shell) (ws : Str)
    (hwd : ∀ c ∈ ws, isDelim c = true) (hlen : ws.length < 4) :
    droptoken (cstr "loop" ++ ws) = some [] ∧ getnumloops [] = -1 ∧
    statement env (cstr "loop" ++ ws) s = Outcome.ret false (reportError s) := by
  have hl : cstr "loop" = ['l', 'o', 'o', 'p'] := by decide
  have hlnd : ∀ c ∈ cstr "loop", isDelim c = false := by decide
  have hll : (cstr "loop").length = 4 := by decide
  have hhead : ∀ c r, ws = c :: r → isDelim c = true := by
    intro c r e
    exact hwd c (by rw [e]; simp)
  have hcheck := loopcheck_loop ws hhead
  have hst := strtok_token (cstr "loop") ws (by rw [hl]; simp) hlnd hhead
  have hsuf_ne : (cstr "loop").drop ws.length ≠ [] := by
    intro e
    have := congrArg List.length e
    simp only [List.length_drop, hll, List.length_nil] at this
    omega
  have hsuf_nd : ∀ c ∈ (cstr "loop").drop ws.length, isDelim c = false :=
    fun c hc => hlnd c (List.mem_of_mem_drop hc)
  have hdrop : droptoken (cstr "loop" ++ ws) = some [] := by
    unfold droptoken
    rw [hst]
    simp only
    have hmoved : (cstr "loop" ++ ws).drop (cstr "loop").length = ws := List.drop_left _ _
    have htail : (cstr "loop" ++ ws).drop ((cstr "loop" ++ ws).length - (cstr "loop").length)
        = (cstr "loop").drop ws.length ++ ws := by
      have e : (cstr "loop" ++ ws).length - (cstr "loop").length = ws.length := by
        simp
      rw [e, List.drop_append_of_le_length (by rw [hll]; omega)]
    rw [hmoved, htail, trimleading_eq,
      dropWhile_blanks_append ws _ hwd (head_token_of_append _ ws hsuf_ne hsuf_nd)]
    have hlen4 : ((cstr "loop").drop ws.length ++ ws).length = (cstr "loop").length := by
      simp only [List.length_append, List.length_drop, hll]
      omega
    rw [hlen4, if_pos (le_refl _), Nat.sub_self, List.take_zero]
  refine ⟨hdrop, by decide, ?_⟩
  unfold statement
  rw [hcheck, if_pos rfl, hdrop]
  simp only
  rw [if_neg (by decide)]

/-- The statement `loop abc ls`: the count `abc` is refused. -/
theorem malformed_loop_statement_witness :
    statement okEnv (cstr "loop" ++ (cstr " " ++ (cstr "abc" ++ cstr " ls"))) shell0
      = Outcome.ret false (reportError shell0) :=
  (malformed_loop_statement okEnv shell0 (cstr " ") (cstr "abc") (cstr " ls") (by decide)
    (by decide) (by decide) (by decide)
    (by
      intro c r h
      have e : cstr " ls" = [' ', 'l', 's'] := by decide
      rw [e] at h
      cases h
      rfl)
    (Or.inl ⟨'a', by decide, by decide⟩)).2.2

/-- The statement `loop` followed by two spaces: the count is missing. -/
theorem bare_loop_statement_witness :
    statement okEnv (cstr "loop" ++ cstr "  ") shell0 = Outcome.ret false (reportError shell0) :=
  (bare_loop_statement okEnv shell0 (cstr "  ") (by decide) (by decide)).2.2

/-- C11: the statements `loop 0 ls`, `loop -1 ls` and `loop abc ls` have their count refused
(`getnumloops` is -1), the error is written once and nothing is dispatched.  For the statement
`loop` followed by four spaces, however, `droptoken` stores in front of the line before
`getnumloops` is reached: what follows is undefined. -/
theorem bare_loop_four_blanks_undefined :
    getnumloops (cstr "0 ls") = -1 ∧
    statement okEnv (cstr "loop 0 ls") shell0 = Outcome.ret false (reportError shell0) ∧
    getnumloops (cstr "-1 ls") = -1 ∧
    statement okEnv (cstr "loop -1 ls") shell0 = Outcome.ret false (reportError shell0) ∧
    getnumloops (cstr "abc ls") = -1 ∧
    statement okEnv (cstr "loop abc ls") shell0 = Outcome.ret false (reportError shell0) ∧
    loopcheck (cstr "loop    ") = 1 ∧
    droptoken (cstr "loop    ") = none ∧
    statement okEnv (cstr "loop    ") shell0 = Outcome.ub shell0 := by
  decide

end Smash
